import Mathlib

/-!
# Fault-injection interceptor of `cmd/server/server.go`

A shallow embedding of the server-side fault-injection interceptor: the
metadata resolvers `readFailPercent` and `readFailCodes`, their validators,
the code selectors `anyRandomCode` and `returnAnySuppliedCode`, the echo
handler and `unaryServerInterceptor` itself; and of the metadata stamping of
`unaryClientInterceptor` in `cmd/client/client.go`.

Conventions of the embedding.

* A Go `string` is a sequence of bytes: `GoString := List Nat`.
* A Go `error` value is `Option GoError`; `none` is `nil`.
* `int` and `int64` are `Int` (`int` is 64 bits wide, so the conversion
  `int(i)` of an `int64` is the identity); `uint32`/`uint64` are `Nat`,
  reduced modulo `2^32`/`2^64` wherever the source converts or may wrap.
* A function that can hit a run-time panic (an index out of range) returns
  an `Option`; `none` is the panic.
* The process-wide mutable state (the two atomic counters and the runtime's
  random generator) is the record `World`, passed explicitly.
* `log.Printf`/`log.Println` calls only write diagnostics and are left out.
-/

namespace GrpcTest

/-! ## Strings -/

/-- A Go string: an immutable sequence of bytes. -/
abbrev GoString := List Nat

/-- The bytes of a string literal (UTF-8, as the Go compiler stores it). -/
def str (s : String) : GoString :=
  (s.toList.flatMap String.utf8EncodeChar).map UInt8.toNat

/-- The call `strings.Contains(s, sep)` for a one-byte separator `sep`. -/
def stringsContains (s : GoString) (sep : Nat) : Bool :=
  match s with
  | [] => false
  | c :: rest => if c = sep then true else stringsContains rest sep

/-- The call `strings.Split(s, sep)` for a one-byte separator `sep`: the
    substrings between the separators; a string without separator gives the
    one-element slice holding the string itself. -/
def stringsSplit (s : GoString) (sep : Nat) : List GoString :=
  match s with
  | [] => [[]]
  | c :: rest =>
    if c = sep then [] :: stringsSplit rest sep
    else
      match stringsSplit rest sep with
      | [] => [[c]]
      | p :: ps => (c :: p) :: ps

/-! ## Errors -/

/-- The values of the Go `error` interface that occur in the program. -/
inductive GoError where
  /-- The result of `errors.New(msg)`. -/
  | errorString (msg : GoString)
  /-- A gRPC status error with its code and message. -/
  | statusError (code : Nat) (msg : GoString)
  /-- The error `strconv.ErrSyntax` wrapped in a `*strconv.NumError`. -/
  | errSyntax
  /-- The error `strconv.ErrRange` wrapped in a `*strconv.NumError`. -/
  | errRange
deriving DecidableEq, Repr

/-- The constant `codes.OK`. -/
def codesOK : Nat := 0

/-- The constant `codes.InvalidArgument`. -/
def codesInvalidArgument : Nat := 3

/-- The calls `status.Error(c, msg)` and `status.Errorf(c, format, ...)` of
    `google.golang.org/grpc/status`, with `msg` the formatted message: an
    error representing `c` and `msg`, and `nil` when `c` is `codes.OK`. -/
def statusError (c : Nat) (msg : GoString) : Option GoError :=
  if c = codesOK then none else some (GoError.statusError c msg)

/-! ## Integer conversions -/

/-- The conversion `uint32(i)` of a signed integer: reduction modulo `2^32`. -/
def uint32 (i : Int) : Nat := (i % 4294967296).toNat

/-- The largest `uint64`. -/
def maxUint64 : Nat := 18446744073709551615

/-! ## `strconv.ParseInt(s, 0, 64)` -/

/-- The helper `lower(c)` of `strconv`: `c | ('x' - 'X')`. -/
def lower (c : Nat) : Nat := c ||| 32

/-- The base-prefix switch of `strconv.ParseUint` for `base == 0`, on a
    non-empty string: the base and the digits that remain. -/
def detectBase (s : GoString) : Nat × GoString :=
  match s with
  | 48 :: rest =>
    match rest with
    | c :: _ :: _ =>
      if lower c = 98 then (2, s.drop 2)
      else if lower c = 111 then (8, s.drop 2)
      else if lower c = 120 then (16, s.drop 2)
      else (8, s.drop 1)
    | _ => (8, s.drop 1)
  | _ => (10, s)

/-- The digit loop of `strconv.ParseUint` (called with `base == 0`, so an
    underscore is skipped and remembered): from the accumulator `n` and the
    flag `underscores`, the value, the error and the final flag. -/
def parseDigits (base cutoff maxVal : Nat) :
    GoString → Nat → Bool → Nat × Option GoError × Bool
  | [], n, underscores => (n, none, underscores)
  | c :: rest, n, underscores =>
    if c = 95 then parseDigits base cutoff maxVal rest n true
    else
      let d? : Option Nat :=
        if 48 ≤ c ∧ c ≤ 57 then some (c - 48)
        else if 97 ≤ lower c ∧ lower c ≤ 122 then some (lower c - 97 + 10)
        else none
      match d? with
      | none => (0, some GoError.errSyntax, underscores)
      | some d =>
        if d ≥ base then (0, some GoError.errSyntax, underscores)
        else if n ≥ cutoff then (maxVal, some GoError.errRange, underscores)
        else
          let n0 := (n * base) % 18446744073709551616
          let n1 := (n0 + d) % 18446744073709551616
          if n1 < n0 ∨ n1 > maxVal then (maxVal, some GoError.errRange, underscores)
          else parseDigits base cutoff maxVal rest n1 underscores

/-- The loop of `strconv.underscoreOK` over the number proper; `saw` is the
    kind of the previous byte (`48` digit, `95` underscore, `33` other). -/
def underscoreLoop (hex : Bool) : GoString → Nat → Bool
  | [], saw => saw ≠ 95
  | c :: rest, saw =>
    if (48 ≤ c ∧ c ≤ 57) ∨ (hex = true ∧ 97 ≤ lower c ∧ lower c ≤ 102) then
      underscoreLoop hex rest 48
    else if c = 95 then
      if saw ≠ 48 then false else underscoreLoop hex rest 95
    else if saw = 95 then false
    else underscoreLoop hex rest 33

/-- The function `strconv.underscoreOK`: underscores only between digits or
    between a base prefix and a digit. -/
def underscoreOK (s : GoString) : Bool :=
  let s :=
    match s with
    | c :: rest => if c = 45 ∨ c = 43 then rest else s
    | [] => s
  match s with
  | 48 :: c :: rest =>
    if lower c = 98 ∨ lower c = 111 ∨ lower c = 120 then
      underscoreLoop (lower c = 120) rest 48
    else underscoreLoop false s 94
  | _ => underscoreLoop false s 94

/-- The call `strconv.ParseUint(s, 0, 64)`. -/
def ParseUint (s : GoString) : Nat × Option GoError :=
  match s with
  | [] => (0, some GoError.errSyntax)
  | _ :: _ =>
    let (base, digits) := detectBase s
    let cutoff := maxUint64 / base + 1
    let maxVal := maxUint64
    match parseDigits base cutoff maxVal digits 0 false with
    | (n, some e, _) => (n, some e)
    | (n, none, underscores) =>
      if underscores = true ∧ underscoreOK s = false then (0, some GoError.errSyntax)
      else (n, none)

/-- The call `strconv.ParseInt(s, 0, 64)`: an optional sign, then
    `ParseUint`, then the range check of a signed 64-bit integer. -/
def ParseInt (s : GoString) : Int × Option GoError :=
  match s with
  | [] => (0, some GoError.errSyntax)
  | c :: rest =>
    let neg : Bool := c = 45
    let s1 := if c = 43 ∨ c = 45 then rest else s
    match ParseUint s1 with
    | (un, err) =>
      let cutoff : Nat := 9223372036854775808
      if err ≠ none ∧ err ≠ some GoError.errRange then (0, err)
      else if neg = false ∧ un ≥ cutoff then ((cutoff : Int) - 1, some GoError.errRange)
      else if neg = true ∧ un > cutoff then (-(cutoff : Int), some GoError.errRange)
      else if neg = true then (-(un : Int), none) else ((un : Int), none)

/-! ## Formatting -/

/-- The verb `%d` of `fmt` on an unsigned integer: its decimal digits. -/
def fmtD (n : Nat) : GoString := (Nat.toDigits 10 n).map Char.toNat

/-! ## Metadata and context -/

/-- The type `metadata.MD`, a `map[string][]string`, as an association list
    read by key (the first binding of a key is the map's entry). -/
abbrev MD := List (GoString × List GoString)

/-- The map read `md[key]` with its presence flag: `none` when the key is
    absent. -/
def MD.get (md : MD) (key : GoString) : Option (List GoString) := md.lookup key

/-- What the interceptor uses of a `context.Context`: the result of
    `metadata.FromIncomingContext(ctx)`, `none` when its `ok` is false. -/
structure Context where
  incomingMD : Option MD

/-! ## Process state -/

/-- The process-wide mutable state: the package variables `success` and
    `fail` (both `atomic.Uint64`) and the successive 32-bit words that the
    runtime's generator will produce. -/
structure World where
  success : Nat
  fail : Nat
  rand : Nat → Nat

/-- The method `(*atomic.Uint64).Add`: the new value, wrapping at `2^64`. -/
def atomicAdd (v delta : Nat) : Nat := (v + delta) % 18446744073709551616

/-- The function `FastRandN(n)`, linked to `runtime.fastrandn`: the multiply
    and shift reduction `uint32(uint64(x) * uint64(n) >> 32)` of the next
    32-bit word `x` of the generator, which is consumed. -/
def FastRandN (n : Nat) (w : World) : Nat × World :=
  (((w.rand 0 % 4294967296) * n / 4294967296) % 4294967296,
   { w with rand := fun k => w.rand (k + 1) })

/-- The constant `maxCode`. -/
def maxCode : Nat := 15

/-- The package variable `errMissingMetadata`. -/
def errMissingMetadata : Option GoError :=
  statusError codesInvalidArgument (str "missing metadata")

/-! ## The echo service -/

/-- The message `pb.EchoRequest`. -/
structure EchoRequest where
  Message : GoString
deriving DecidableEq, Repr

/-- The message `pb.EchoResponse`. -/
structure EchoResponse where
  Message : GoString
deriving DecidableEq, Repr

/-- The type `grpc.UnaryHandler`: from the context and the request, the
    response (`none` is `nil`) and the error, acting on the process state. -/
abbrev UnaryHandler (Req Resp : Type) :=
  Context → Req → World → (Option Resp × Option GoError) × World

/-- The method `echoServer.UnaryEcho`: counts the request as succeeded and
    echoes the message. -/
def UnaryEcho : UnaryHandler EchoRequest EchoResponse :=
  fun _ctx req w =>
    let w1 := { w with success := atomicAdd w.success 1 }
    ((some { Message := req.Message }, none), w1)

/-! ## Validators and resolvers -/

/-- The function `validateFailurePercent`: an error unless the percentage is
    between 0 and 100 inclusive. -/
def validateFailurePercent (failureRate : Int) : Option GoError :=
  if failureRate < 0 ∨ failureRate > 100 then
    some (GoError.errorString (str "invalid failureRate"))
  else none

/-- The function `validateCodeUint32`: an error when the code is above 16. -/
def validateCodeUint32 (code : Nat) : Option GoError :=
  if code > 16 then some (GoError.errorString (str "invalid code")) else none

/-- The function `readFailPercent`: the percentage of the metadata key
    "failpercent" when present, parsed and validated, else `failureRate`.
    The outer `none` is the panic of `t[0]` on an empty value slice. -/
def readFailPercent (failureRate : Int) (md : MD) : Option (Int × Option GoError) :=
  match md.get (str "failpercent") with
  | some t =>
    match t[0]? with
    | none => none
    | some t0 =>
      match ParseInt t0 with
      | (_, some _) =>
        some (0, statusError codesInvalidArgument (str "failme ParseInt error"))
      | (i, none) =>
        match validateFailurePercent i with
        | some _ =>
          some (0, statusError codesInvalidArgument (str "failme validateFailurePercent error"))
        | none => some (i, none)
  | none => some (failureRate, none)

/-- The loop of `readFailCodes` over the segments `parts`, from the codes
    `cs` collected so far: the codes and the error it returns with. -/
def readFailCodesLoop : List GoString → List Nat → List Nat × Option GoError
  | [], cs => (cs, none)
  | part :: parts, cs =>
    match ParseInt part with
    | (_, some _) =>
      (cs, statusError codesInvalidArgument (str "failcodes ParseInt error"))
    | (i, none) =>
      match validateCodeUint32 (uint32 i) with
      | some _ =>
        (cs, statusError codesInvalidArgument (str "failcodes validate error"))
      | none => readFailCodesLoop parts (cs ++ [uint32 i])

/-- The function `readFailCodes`: the codes of the metadata key "failcodes",
    a single code or a comma separated list, with the error; the named
    result `cs` starts as the nil slice. The outer `none` is the panic of
    `fc[0]` on an empty value slice. -/
def readFailCodes (md : MD) : Option (List Nat × Option GoError) :=
  let cs : List Nat := []
  match md.get (str "failcodes") with
  | some fc =>
    match fc[0]? with
    | none => none
    | some fc0 =>
      if stringsContains fc0 44 = false then
        match ParseInt fc0 with
        | (_, some _) =>
          some (cs, statusError codesInvalidArgument (str "failcodes ParseInt error"))
        | (c, none) =>
          match validateCodeUint32 (uint32 c) with
          | some _ =>
            some (cs, statusError codesInvalidArgument (str "failcodes validate error"))
          | none => some (cs ++ [uint32 c], none)
      else
        some (readFailCodesLoop (stringsSplit fc0 44) cs)
  | none => some (cs, none)

/-! ## Code selection -/

/-- The function `anyRandomCode`: one more than a draw below `maxCode`. -/
def anyRandomCode (w : World) : Nat × World :=
  let (r, w1) := FastRandN maxCode w
  ((r + 1) % 4294967296, w1)

/-- The function `returnAnySuppliedCode`: the supplied code at a drawn index
    below the length; `none` is the panic of an index out of range. -/
def returnAnySuppliedCode (cs : List Nat) (w : World) : Option (Nat × World) :=
  let (k, w1) := FastRandN (cs.length % 4294967296) w
  match cs[k]? with
  | none => none
  | some code => some (code, w1)

/-! ## The interceptor -/

/-- The diagnostic message of an injected failure,
    "intercept failure code:%d rp:%d fail:%d". -/
def interceptMessage (code rp f : Nat) : GoString :=
  str "intercept failure code:" ++ fmtD code ++ str " rp:" ++ fmtD rp ++
    str " fail:" ++ fmtD f

/-- The switch on `len(fcs)` of the interceptor: the code of an injected
    failure; `none` is a panic. -/
def selectCode (fcs : List Nat) (w : World) : Option (Nat × World) :=
  match fcs with
  | [] => some (anyRandomCode w)
  | [c] => some (c, w)
  | _ :: _ :: _ => returnAnySuppliedCode fcs w

/-- The body of the branch `rp < uint32(fp)` of the interceptor: count the
    failure, select the code and return the status error built from it. -/
def injectFailure {Resp : Type} (fcs : List Nat) (rp : Nat) (w1 : World) :
    Option ((Option Resp × Option GoError) × World) :=
  let f := atomicAdd w1.fail 1
  let w2 := { w1 with fail := f }
  match selectCode fcs w2 with
  | none => none
  | some (code, w3) =>
    some ((none, statusError code (interceptMessage (code % 4294967296) rp f)), w3)

/-- The interceptor returned by `unaryServerInterceptor(failureRate)`, applied
    to a call: the response (`none` is `nil`), the error and the new process
    state; the outer `none` is a panic. -/
def unaryServerInterceptor {Req Resp : Type} (failureRate : Int) (ctx : Context)
    (req : Req) (handler : UnaryHandler Req Resp) (w : World) :
    Option ((Option Resp × Option GoError) × World) :=
  match ctx.incomingMD with
  | none => some ((none, errMissingMetadata), w)
  | some md =>
    match readFailPercent failureRate md with
    | none => none
    | some (_, some errG) => some ((none, some errG), w)
    | some (fp, none) =>
      match readFailCodes md with
      | none => none
      | some (_, some errC) => some ((none, some errC), w)
      | some (fcs, none) =>
        let (rp, w1) := FastRandN 100 w
        if rp < uint32 fp then injectFailure fcs rp w1
        else some (handler ctx req w1)

/-- The interceptor that `main` installs: the value of the flag
    `failurePercent` goes to `unaryServerInterceptor` as parsed, unchecked. -/
def mainInterceptor {Req Resp : Type} (failurePercent : Int) (ctx : Context)
    (req : Req) (handler : UnaryHandler Req Resp) (w : World) :
    Option ((Option Resp × Option GoError) × World) :=
  unaryServerInterceptor failurePercent ctx req handler w

/-! ## Reference behaviour of the probability resolver -/

/-- The outcome of a resolver in the words of the specification: a value, or
    the call fails with invalid-argument. -/
inductive Resolved (α : Type) where
  | value (a : α)
  | invalidArgument
deriving DecidableEq, Repr

/-- The outcome that a returned pair of value and error stands for; `none`
    for an error that is not an invalid-argument status. -/
def resolvedOf {α : Type} : α × Option GoError → Option (Resolved α)
  | (v, none) => some (Resolved.value v)
  | (_, some (GoError.statusError c _)) =>
    if c = codesInvalidArgument then some Resolved.invalidArgument else none
  | (_, some _) => none

/-- The probability resolution as the specification words it: the default
    when the key "failpercent" is absent; otherwise the first value decides
    alone, invalid-argument when it does not parse or parses outside 0..100,
    and its parsed value otherwise. -/
def readFailPercentRef (dflt : Int) (md : MD) : Resolved Int :=
  match md.get (str "failpercent") with
  | none => Resolved.value dflt
  | some values =>
    let first := values.headD []
    if (ParseInt first).2 = none ∧ 0 ≤ (ParseInt first).1 ∧ (ParseInt first).1 ≤ 100 then
      Resolved.value (ParseInt first).1
    else Resolved.invalidArgument

/-! ## Sequences of calls -/

/-- A call passes metadata validation: the metadata is there and both
    resolvers return without error. -/
def passesValidation (failureRate : Int) (ctx : Context) : Prop :=
  ∃ md p fcs, ctx.incomingMD = some md ∧
    readFailPercent failureRate md = some (p, none) ∧
    readFailCodes md = some (fcs, none)

/-- Calls executed one after another through the interceptor with the echo
    handler installed: the final process state; `none` is a panic. -/
def runCalls (failureRate : Int) : List (Context × EchoRequest) → World → Option World
  | [], w => some w
  | (ctx, req) :: rest, w =>
    match unaryServerInterceptor failureRate ctx req UnaryEcho w with
    | none => none
    | some (_, w1) => runCalls failureRate rest w1

/-! ## Sample inputs -/

/-- The world with zeroed counters whose generator yields the word `x`. -/
def worldWithWord (x : Nat) : World := { success := 0, fail := 0, rand := fun _ => x }

/-- The metadata that the client stamps for `failpercent` and `failcodes`. -/
def sampleMD (failpercent failcodes : String) : MD :=
  [(str "failpercent", [str failpercent]), (str "failcodes", [str failcodes])]

/-- An echo request. -/
def sampleReq : EchoRequest := { Message := str "Try and Success" }

/-! ## The client side -/

/-- The verb `%d` of `fmt` on a signed integer: a minus sign for a negative
    value, then the decimal digits of the magnitude. -/
def fmtInt (i : Int) : GoString :=
  if i < 0 then 45 :: fmtD (-i).toNat else fmtD i.toNat

/-- The call `strings.Join(elems, sep)` for a one-byte separator `sep`. -/
def stringsJoin (elems : List GoString) (sep : Nat) : GoString :=
  match elems with
  | [] => []
  | [x] => x
  | x :: y :: rest => x ++ sep :: stringsJoin (y :: rest) sep

/-- The call `strings.ToLower(s)` on an ASCII string: the upper-case letters
    are moved to lower case, every other byte stays. -/
def stringsToLower (s : GoString) : GoString :=
  s.map (fun c => if 65 ≤ c ∧ c ≤ 90 then c + 32 else c)

/-- The statement `md[key] = append(md[key], v)` on the association list. -/
def MD.appendValue (md : MD) (key v : GoString) : MD :=
  match md with
  | [] => [(key, [v])]
  | (k, vs) :: rest =>
    if k = key then (k, vs ++ [v]) :: rest else (k, vs) :: MD.appendValue rest key v

/-- The loop of `metadata.Pairs` over the arguments, two at a time, from the
    map built so far; `none` is its panic on an odd number of arguments. -/
def metadataPairsLoop : List GoString → MD → Option MD
  | [], md => some md
  | [_], _ => none
  | key :: v :: rest, md => metadataPairsLoop rest (md.appendValue (stringsToLower key) v)

/-- The call `metadata.Pairs(kv...)` of `google.golang.org/grpc/metadata`. -/
def metadataPairs (kv : List GoString) : Option MD := metadataPairsLoop kv []

/-- The interceptor returned by `unaryClientInterceptor(failpercent,
    failcodes)` of `cmd/client/client.go`: the metadata it attaches to the
    outgoing context of every call before it invokes the call. -/
def unaryClientInterceptor (failpercent : Int) (failcodes : GoString) : Option MD :=
  metadataPairs [str "failpercent", fmtInt failpercent, str "failcodes", failcodes]

/-! ## The loop of `readFailCodes` with its index -/

/-- The loop `for i := 0; i < len(parts); i++` of `readFailCodes` with the
    index kept: from the index `i` and the codes `cs` collected so far;
    `none` is the panic of `parts[i]` out of range. -/
def readFailCodesFrom (parts : List GoString) (i : Nat) (cs : List Nat) :
    Option (List Nat × Option GoError) :=
  if i < parts.length then
    match parts[i]? with
    | none => none
    | some part =>
      match ParseInt part with
      | (_, some _) =>
        some (cs, statusError codesInvalidArgument (str "failcodes ParseInt error"))
      | (c, none) =>
        match validateCodeUint32 (uint32 c) with
        | some _ =>
          some (cs, statusError codesInvalidArgument (str "failcodes validate error"))
        | none => readFailCodesFrom parts (i + 1) (cs ++ [uint32 c])
  else some (cs, none)
termination_by parts.length - i

/-- A handler that fails with the status `Internal`. -/
def failingHandler : UnaryHandler EchoRequest EchoResponse :=
  fun _ctx _req w => ((none, some (GoError.statusError 13 (str "handler failed"))), w)

/-! ## The two branches of `readFailCodes` -/

/-- The branch of `readFailCodes` for a first value without a comma: parse
    and validate the value as the one code. -/
def noCommaBranch (fc0 : GoString) : List Nat × Option GoError :=
  match ParseInt fc0 with
  | (_, some _) => ([], statusError codesInvalidArgument (str "failcodes ParseInt error"))
  | (c, none) =>
    match validateCodeUint32 (uint32 c) with
    | some _ => ([], statusError codesInvalidArgument (str "failcodes validate error"))
    | none => ([] ++ [uint32 c], none)

/-- The general branch of `readFailCodes`: split the first value on commas
    and run the loop over the segments. -/
def splitBranch (fc0 : GoString) : List Nat × Option GoError :=
  readFailCodesLoop (stringsSplit fc0 44) []

/-- The two checks of the loop body of `readFailCodes` on one segment: it
    parses without error and its `uint32` conversion passes
    `validateCodeUint32`. -/
def segmentAccepted (seg : GoString) : Bool :=
  match ParseInt seg with
  | (_, some _) => false
  | (c, none) =>
    match validateCodeUint32 (uint32 c) with
    | some _ => false
    | none => true

/-! ## Basic facts about the primitives -/

theorem statusError_of_ne_zero (c : Nat) (msg : GoString) (h : c ≠ 0) :
    statusError c msg = some (GoError.statusError c msg) := by
  simp [statusError, codesOK, h]

theorem statusError_invalidArgument (msg : GoString) :
    statusError codesInvalidArgument msg =
      some (GoError.statusError codesInvalidArgument msg) := by
  simp [statusError, codesOK, codesInvalidArgument]

theorem uint32_of_nonneg_lt (i : Int) (h0 : 0 ≤ i) (h : i < 4294967296) :
    (uint32 i : Int) = i := by
  unfold uint32
  rw [Int.emod_eq_of_lt h0 h]
  exact Int.toNat_of_nonneg h0

theorem uint32_lt (i : Int) : uint32 i < 4294967296 := by
  unfold uint32
  have h1 : (0 : Int) ≤ i % 4294967296 := Int.emod_nonneg _ (by decide)
  have h2 : i % 4294967296 < 4294967296 := Int.emod_lt_of_pos _ (by decide)
  omega

/-- A draw `FastRandN(n)` is below `n` when `n` is positive. -/
theorem FastRandN_fst_lt (n : Nat) (w : World) (hn : 0 < n) :
    (FastRandN n w).1 < n := by
  unfold FastRandN
  have hx : w.rand 0 % 4294967296 < 4294967296 := Nat.mod_lt _ (by decide)
  have hdiv : w.rand 0 % 4294967296 * n / 4294967296 < n := by
    rw [Nat.div_lt_iff_lt_mul (by decide)]
    rw [Nat.mul_comm n 4294967296]
    exact Nat.mul_lt_mul_of_pos_right hx hn
  exact Nat.lt_of_le_of_lt (Nat.mod_le _ _) hdiv

/-- A draw `FastRandN(0)` is `0`. -/
theorem FastRandN_fst_zero (w : World) : (FastRandN 0 w).1 = 0 := by
  simp [FastRandN]

/-- A draw leaves the counters alone. -/
theorem FastRandN_snd_counters (n : Nat) (w : World) :
    (FastRandN n w).2.success = w.success ∧ (FastRandN n w).2.fail = w.fail := by
  simp [FastRandN]

/-- Every value below `n` is the draw `FastRandN(n)` of some generator word,
    for `n` a positive `uint32`. -/
theorem FastRandN_surjective (n r : Nat) (hn : n ≤ 4294967296) (hr : r < n) :
    ∃ w : World, (FastRandN n w).1 = r := by
  have hnpos : 0 < n := Nat.lt_of_le_of_lt (Nat.zero_le r) hr
  refine ⟨worldWithWord ((r * 4294967296 + (n - 1)) / n), ?_⟩
  have hxlt : (r * 4294967296 + (n - 1)) / n < 4294967296 := by
    rw [Nat.div_lt_iff_lt_mul hnpos]
    have h1 : (r + 1) * 4294967296 ≤ n * 4294967296 := Nat.mul_le_mul_right _ hr
    have h2 : n * 4294967296 = 4294967296 * n := Nat.mul_comm _ _
    have h3 : (r + 1) * 4294967296 = r * 4294967296 + 4294967296 := by ring
    omega
  have hlow : r * 4294967296 ≤ (r * 4294967296 + (n - 1)) / n * n := by
    have hmod := Nat.div_add_mod (r * 4294967296 + (n - 1)) n
    have hlt := Nat.mod_lt (r * 4294967296 + (n - 1)) hnpos
    have hc : n * ((r * 4294967296 + (n - 1)) / n) =
        (r * 4294967296 + (n - 1)) / n * n := Nat.mul_comm _ _
    omega
  have hhigh : (r * 4294967296 + (n - 1)) / n * n < (r + 1) * 4294967296 := by
    have hle := Nat.div_mul_le_self (r * 4294967296 + (n - 1)) n
    have h3 : (r + 1) * 4294967296 = r * 4294967296 + 4294967296 := by ring
    omega
  have hq : (r * 4294967296 + (n - 1)) / n * n / 4294967296 = r := by
    apply Nat.div_eq_of_lt_le
    · exact hlow
    · exact hhigh
  have hrlt : r < 4294967296 := Nat.lt_of_lt_of_le hr hn
  simp only [FastRandN, worldWithWord]
  rw [Nat.mod_eq_of_lt hxlt, hq, Nat.mod_eq_of_lt hrlt]

/-- The index drawn by `returnAnySuppliedCode` is within the slice. -/
theorem supplied_index_lt (S : List Nat) (w : World) (hS : S ≠ []) :
    (FastRandN (S.length % 4294967296) w).1 < S.length := by
  have hlen : 0 < S.length := List.length_pos.mpr hS
  rcases Nat.eq_zero_or_pos (S.length % 4294967296) with h0 | hpos
  · rw [h0, FastRandN_fst_zero]
    exact hlen
  · exact Nat.lt_of_lt_of_le (FastRandN_fst_lt _ w hpos) (Nat.mod_le _ _)

/-- The function `returnAnySuppliedCode` returns the entry at the drawn
    index and never panics on a non-empty slice. -/
theorem returnAnySuppliedCode_eq (S : List Nat) (w : World) (hS : S ≠ []) :
    returnAnySuppliedCode S w =
      some (S.get ⟨(FastRandN (S.length % 4294967296) w).1, supplied_index_lt S w hS⟩,
        (FastRandN (S.length % 4294967296) w).2) := by
  have hk := supplied_index_lt S w hS
  unfold returnAnySuppliedCode
  simp only []
  rw [List.getElem?_eq_getElem hk]
  rfl

/-- The code of an injected failure with an empty list is a draw plus one. -/
theorem anyRandomCode_bounds (w : World) :
    1 ≤ (anyRandomCode w).1 ∧ (anyRandomCode w).1 ≤ 15 := by
  have h := FastRandN_fst_lt maxCode w (by decide)
  have hm : maxCode = 15 := rfl
  rw [hm] at h
  have he : (anyRandomCode w).1 = ((FastRandN 15 w).1 + 1) % 4294967296 := rfl
  rw [he]
  omega

/-! ## The claims -/

/-- The branch taken: once the probability `p` of a call is resolved within
    0..100, the draw `r = FastRandN(100)` is within 0..99, the interceptor
    takes the fault-injection branch when `r < p` and calls the real handler
    otherwise; so `p = 0` always reaches the handler and `p = 100` always
    takes the injection branch. Every value 0..99 is the draw of some
    generator state. -/
theorem decision_branch_of_draw {Req Resp : Type} (failureRate : Int) (ctx : Context)
    (req : Req) (handler : UnaryHandler Req Resp) (w : World) (md : MD) (p : Int)
    (fcs : List Nat)
    (hctx : ctx.incomingMD = some md)
    (hp : readFailPercent failureRate md = some (p, none))
    (hc : readFailCodes md = some (fcs, none))
    (h0 : 0 ≤ p) (h100 : p ≤ 100) :
    (FastRandN 100 w).1 ≤ 99 ∧
    (((FastRandN 100 w).1 : Int) < p →
      unaryServerInterceptor failureRate ctx req handler w =
        injectFailure fcs (FastRandN 100 w).1 (FastRandN 100 w).2) ∧
    (¬ ((FastRandN 100 w).1 : Int) < p →
      unaryServerInterceptor failureRate ctx req handler w =
        some (handler ctx req (FastRandN 100 w).2)) ∧
    (p = 0 →
      unaryServerInterceptor failureRate ctx req handler w =
        some (handler ctx req (FastRandN 100 w).2)) ∧
    (p = 100 →
      unaryServerInterceptor failureRate ctx req handler w =
        injectFailure fcs (FastRandN 100 w).1 (FastRandN 100 w).2) ∧
    (∀ r : Nat, r ≤ 99 → ∃ w' : World, (FastRandN 100 w').1 = r) := by
  have hr : (FastRandN 100 w).1 < 100 := FastRandN_fst_lt 100 w (by decide)
  have hu : (uint32 p : Int) = p := uint32_of_nonneg_lt p h0 (by omega)
  have hiff : (FastRandN 100 w).1 < uint32 p ↔ ((FastRandN 100 w).1 : Int) < p := by
    constructor <;> intro h <;> omega
  have hfail : ((FastRandN 100 w).1 : Int) < p →
      unaryServerInterceptor failureRate ctx req handler w =
        injectFailure fcs (FastRandN 100 w).1 (FastRandN 100 w).2 := by
    intro h
    unfold unaryServerInterceptor
    simp only [hctx, hp, hc]
    rw [if_pos (hiff.mpr h)]
  have hpass : ¬ ((FastRandN 100 w).1 : Int) < p →
      unaryServerInterceptor failureRate ctx req handler w =
        some (handler ctx req (FastRandN 100 w).2) := by
    intro h
    unfold unaryServerInterceptor
    simp only [hctx, hp, hc]
    rw [if_neg (fun hlt => h (hiff.mp hlt))]
  refine ⟨by omega, hfail, hpass, ?_, ?_, ?_⟩
  · intro hz
    apply hpass
    omega
  · intro hz
    apply hfail
    omega
  · intro r hr99
    exact FastRandN_surjective 100 r (by decide) (by omega)

/-- C1: at `failpercent=50`, `failcodes=0` the probability resolves to 50,
    within 0..100, and the codes to the list holding 0. With the draw 0,
    which is below 50, the interceptor counts a failure and returns a nil
    response with a nil error, the same for every handler: the call is not
    rejected. With the draw 99 it returns what the handler returns. -/
theorem C1_draw_below_not_rejected {Req Resp : Type} (req : Req)
    (handler : UnaryHandler Req Resp) :
    readFailPercent 7 (sampleMD "50" "0") = some (50, none) ∧
    readFailCodes (sampleMD "50" "0") = some ([0], none) ∧
    (FastRandN 100 (worldWithWord 0)).1 = 0 ∧
    unaryServerInterceptor 7 { incomingMD := some (sampleMD "50" "0") } req handler
        (worldWithWord 0) =
      some ((none, none), { success := 0, fail := 1, rand := fun _ => 0 }) ∧
    (FastRandN 100 (worldWithWord 4294967295)).1 = 99 ∧
    unaryServerInterceptor 7 { incomingMD := some (sampleMD "50" "0") } req handler
        (worldWithWord 4294967295) =
      some (handler { incomingMD := some (sampleMD "50" "0") } req
        (worldWithWord 4294967295)) := by
  have hp : readFailPercent 7 (sampleMD "50" "0") = some (50, none) := by decide
  have hc : readFailCodes (sampleMD "50" "0") = some ([0], none) := by decide
  have hlt : (FastRandN 100 (worldWithWord 0)).1 < uint32 50 := by decide
  have hge : ¬ (FastRandN 100 (worldWithWord 4294967295)).1 < uint32 50 := by decide
  refine ⟨hp, hc, by decide, ?_, by decide, ?_⟩
  · unfold unaryServerInterceptor
    simp only [hp, hc]
    rw [if_pos hlt]
    rfl
  · unfold unaryServerInterceptor
    simp only [hp, hc]
    rw [if_neg hge]
    rfl

/-- C5: on an injected failure with an empty code list the code comes from
    `anyRandomCode`: the draw `FastRandN(15)` is within 0..14 and the status
    error carries a code within 1..15, never 0 and never 16. -/
theorem C5_random_code_in_1_15 {Resp : Type} (rp : Nat) (w : World) :
    (FastRandN maxCode w).1 ≤ 14 ∧
    selectCode [] w = some (anyRandomCode w) ∧
    (1 ≤ (anyRandomCode w).1 ∧ (anyRandomCode w).1 ≤ 15) ∧
    (∃ code msg w3,
      @injectFailure Resp [] rp w =
        some ((none, some (GoError.statusError code msg)), w3) ∧
      1 ≤ code ∧ code ≤ 15) := by
  have h := FastRandN_fst_lt maxCode w (by decide)
  have hm : maxCode = 15 := rfl
  refine ⟨by omega, rfl, anyRandomCode_bounds w, ?_⟩
  have hb := anyRandomCode_bounds { w with fail := atomicAdd w.fail 1 }
  refine ⟨(anyRandomCode { w with fail := atomicAdd w.fail 1 }).1,
    interceptMessage ((anyRandomCode { w with fail := atomicAdd w.fail 1 }).1 % 4294967296)
      rp (atomicAdd w.fail 1),
    (anyRandomCode { w with fail := atomicAdd w.fail 1 }).2, ?_, hb.1, hb.2⟩
  unfold injectFailure
  simp only [selectCode]
  rw [statusError_of_ne_zero _ _ (by omega)]

/-- C6: on an injected failure with a non-empty code list `S` the selected
    code is an element of `S`: a single entry is taken as it is, without a
    draw, and for two or more entries `returnAnySuppliedCode` returns `S[k]`
    for the draw `k = FastRandN(uint32(len(S)))`, which is below `len(S)`. -/
theorem C6_supplied_code_mem (S : List Nat) (w : World) (hS : S ≠ []) :
    (∃ code w1, selectCode S w = some (code, w1) ∧ code ∈ S) ∧
    (∀ c, S = [c] → selectCode S w = some (c, w)) ∧
    (2 ≤ S.length →
      selectCode S w = returnAnySuppliedCode S w ∧
      ∃ hk : (FastRandN (S.length % 4294967296) w).1 < S.length,
        returnAnySuppliedCode S w =
          some (S.get ⟨(FastRandN (S.length % 4294967296) w).1, hk⟩,
            (FastRandN (S.length % 4294967296) w).2)) := by
  have hret := returnAnySuppliedCode_eq S w hS
  refine ⟨?_, ?_, ?_⟩
  · match S, hS, hret with
    | [c], _, _ => exact ⟨c, w, rfl, List.mem_singleton.mpr rfl⟩
    | a :: b :: rest, _, hret =>
      have hsel : selectCode (a :: b :: rest) w =
          returnAnySuppliedCode (a :: b :: rest) w := rfl
      exact ⟨_, _, hsel.trans hret, List.get_mem _ _ _⟩
  · intro c hc
    subst hc
    rfl
  · intro h2
    refine ⟨?_, supplied_index_lt S w hS, hret⟩
    match S, h2 with
    | a :: b :: rest, _ => rfl

/-- The witness of C6 at the list 4, 8, 14. -/
theorem C6_supplied_code_mem_witness :
    ∃ code w1, selectCode [4, 8, 14] (worldWithWord 7) = some (code, w1) ∧
      code ∈ [4, 8, 14] :=
  (C6_supplied_code_mem [4, 8, 14] (worldWithWord 7) (by decide)).1

/-! ### Resolver lemmas -/

/-- An error of `readFailPercent` is an invalid-argument status. -/
theorem readFailPercent_error (failureRate : Int) (md : MD) (v : Int) (e : GoError)
    (h : readFailPercent failureRate md = some (v, some e)) :
    ∃ msg, e = GoError.statusError codesInvalidArgument msg := by
  unfold readFailPercent at h
  simp only [statusError_invalidArgument] at h
  split at h
  · split at h
    · exact absurd h (by simp)
    · split at h
      · simp only [Option.some.injEq, Prod.mk.injEq] at h
        exact ⟨_, h.2.symm⟩
      · split at h
        · simp only [Option.some.injEq, Prod.mk.injEq] at h
          exact ⟨_, h.2.symm⟩
        · simp at h
  · simp at h

/-- The loop of `readFailCodes` keeps every collected code at most 16 and
    its error, if any, is an invalid-argument status. -/
theorem readFailCodesLoop_spec (parts : List GoString) :
    ∀ cs : List Nat, (∀ c ∈ cs, c ≤ 16) →
      (∀ c ∈ (readFailCodesLoop parts cs).1, c ≤ 16) ∧
      (∀ e, (readFailCodesLoop parts cs).2 = some e →
        ∃ msg, e = GoError.statusError codesInvalidArgument msg) := by
  induction parts with
  | nil =>
    intro cs hcs
    exact ⟨hcs, by simp [readFailCodesLoop]⟩
  | cons part parts ih =>
    intro cs hcs
    unfold readFailCodesLoop
    simp only [statusError_invalidArgument]
    split
    · exact ⟨hcs, fun e he => ⟨_, (Option.some.inj he).symm⟩⟩
    · split
      · exact ⟨hcs, fun e he => ⟨_, (Option.some.inj he).symm⟩⟩
      · rename_i i _ _ hval
        apply ih
        intro c hc
        rcases List.mem_append.mp hc with h1 | h1
        · exact hcs c h1
        · have hc16 : uint32 i ≤ 16 := by
            unfold validateCodeUint32 at hval
            by_contra hgt
            rw [if_pos (by omega)] at hval
            exact absurd hval (by simp)
          rw [List.mem_singleton.mp h1]
          exact hc16

/-- Whatever `readFailCodes` returns, its codes are at most 16 and its
    error, if any, is an invalid-argument status. -/
theorem readFailCodes_spec (md : MD) (cs : List Nat) (err : Option GoError)
    (h : readFailCodes md = some (cs, err)) :
    (∀ c ∈ cs, c ≤ 16) ∧
    (∀ e, err = some e → ∃ msg, e = GoError.statusError codesInvalidArgument msg) := by
  unfold readFailCodes at h
  simp only [statusError_invalidArgument] at h
  split at h
  · split at h
    · exact absurd h (by simp)
    · split at h
      · split at h
        · simp only [Option.some.injEq, Prod.mk.injEq] at h
          obtain ⟨h1, h2⟩ := h
          subst h1 h2
          exact ⟨by simp, fun e he => ⟨_, (Option.some.inj he).symm⟩⟩
        · split at h
          · simp only [Option.some.injEq, Prod.mk.injEq] at h
            obtain ⟨h1, h2⟩ := h
            subst h1 h2
            exact ⟨by simp, fun e he => ⟨_, (Option.some.inj he).symm⟩⟩
          · rename_i c _ hval
            simp only [Option.some.injEq, Prod.mk.injEq] at h
            obtain ⟨h1, h2⟩ := h
            subst h1 h2
            refine ⟨?_, by simp⟩
            intro x hx
            simp only [List.nil_append, List.mem_singleton] at hx
            subst hx
            unfold validateCodeUint32 at hval
            by_contra hgt
            rw [if_pos (by omega)] at hval
            exact absurd hval (by simp)
      · rename_i fc0 _ _
        simp only [Option.some.injEq] at h
        have hl := readFailCodesLoop_spec (stringsSplit fc0 44) [] (by simp)
        rw [h] at hl
        exact hl
  · simp only [Option.some.injEq, Prod.mk.injEq] at h
    obtain ⟨h1, h2⟩ := h
    subst h1 h2
    exact ⟨by simp, by simp⟩

/-- C2: on every metadata whose present keys carry at least one value,
    `readFailPercent` returns, without a panic, exactly the outcome of the
    reference: the default when "failpercent" is absent, and otherwise
    invalid-argument or the parsed value as the first value alone decides. -/
theorem C2_readFailPercent_refines (dflt : Int) (md : MD)
    (hmd : ∀ key values, md.get key = some values → values ≠ []) :
    (readFailPercent dflt md).bind resolvedOf = some (readFailPercentRef dflt md) := by
  unfold readFailPercent readFailPercentRef
  simp only [statusError_invalidArgument]
  cases hget : md.get (str "failpercent") with
  | none => rfl
  | some values =>
    cases values with
    | nil => exact absurd rfl (hmd _ _ hget)
    | cons t0 rest =>
      simp only [List.getElem?_cons_zero, List.headD_cons]
      rcases hparse : ParseInt t0 with ⟨i, err⟩
      cases err with
      | some e => simp [resolvedOf]
      | none =>
        simp only [validateFailurePercent, true_and]
        by_cases hr : 0 ≤ i ∧ i ≤ 100
        · rw [if_pos hr, if_neg (by omega)]
          rfl
        · rw [if_neg hr, if_pos (by omega)]
          simp [resolvedOf]

/-- The witness of C2 at `failpercent=abc` with the default 50. -/
theorem C2_readFailPercent_refines_witness :
    (readFailPercent 50 (sampleMD "abc" "14")).bind resolvedOf =
        some (readFailPercentRef 50 (sampleMD "abc" "14")) ∧
    readFailPercentRef 50 (sampleMD "abc" "14") = Resolved.invalidArgument :=
  ⟨C2_readFailPercent_refines 50 (sampleMD "abc" "14") (by
      intro key values h
      simp only [MD.get, sampleMD, List.lookup] at h
      split at h
      · cases h
        simp
      · split at h
        · cases h
          simp
        · cases h),
    by decide⟩

/-- C3: at `failcodes=4294967296` the segment parses to the integer `2^32`,
    outside 0..16, and `readFailCodes` returns the code 0 with no error; at
    `failcodes=4,-4294967295` it returns the codes 4 and 1 with no error. -/
theorem C3_out_of_range_code_accepted :
    ParseInt (str "4294967296") = (4294967296, none) ∧
    readFailCodes [(str "failcodes", [str "4294967296"])] = some ([0], none) ∧
    ParseInt (str "-4294967295") = (-4294967295, none) ∧
    readFailCodes [(str "failcodes", [str "4,-4294967295"])] = some ([4, 1], none) := by
  decide

/-- C4: started with the flag `failurePercent=150` and called with metadata
    that has no "failpercent" key, the interceptor resolves the probability
    150 with no error and injects a failure whatever the draw. -/
theorem C4_default_not_validated {Req Resp : Type} (req : Req)
    (handler : UnaryHandler Req Resp) (w : World) :
    readFailPercent 150 [] = some (150, none) ∧
    mainInterceptor 150 { incomingMD := some [] } req handler w =
      injectFailure [] (FastRandN 100 w).1 (FastRandN 100 w).2 := by
  have hp : readFailPercent 150 [] = some (150, none) := by decide
  have hc : readFailCodes [] = some ([], none) := by decide
  have hu : uint32 150 = 150 := by decide
  have hr : (FastRandN 100 w).1 < 100 := FastRandN_fst_lt 100 w (by decide)
  refine ⟨hp, ?_⟩
  unfold mainInterceptor unaryServerInterceptor
  simp only [hp, hc, hu]
  rw [if_pos (by omega)]

/-- C7: at `failpercent=100`, `failcodes=0` the interceptor counts a failure
    and returns a nil response with a nil error, whatever the draw and the
    handler. -/
theorem C7_code_zero_returns_nil_error {Req Resp : Type} (req : Req)
    (handler : UnaryHandler Req Resp) (w : World) :
    ∃ w1 : World,
      unaryServerInterceptor 50 { incomingMD := some (sampleMD "100" "0") } req handler w =
        some ((none, none), w1) ∧
      w1.fail = atomicAdd w.fail 1 ∧ w1.success = w.success := by
  have hp : readFailPercent 50 (sampleMD "100" "0") = some (100, none) := by decide
  have hc : readFailCodes (sampleMD "100" "0") = some ([0], none) := by decide
  have hu : uint32 100 = 100 := by decide
  have hr : (FastRandN 100 w).1 < 100 := FastRandN_fst_lt 100 w (by decide)
  refine ⟨{ (FastRandN 100 w).2 with fail := atomicAdd w.fail 1 }, ?_, rfl, rfl⟩
  unfold unaryServerInterceptor
  simp only [hp, hc, hu]
  rw [if_pos hr]
  rfl

/-- C9: when the call carries no metadata, or `readFailPercent` returns an
    error, or `readFailCodes` does after the probability resolved, the
    interceptor returns a nil response with an invalid-argument status and
    the process state as it was (both counters, and the generator, so no
    draw was made), the same for every handler. -/
theorem C9_config_error_rejected {Req Resp : Type} (failureRate : Int) (ctx : Context)
    (req : Req) (w : World)
    (hrej : ctx.incomingMD = none ∨
      ∃ md, ctx.incomingMD = some md ∧
        ((∃ v e, readFailPercent failureRate md = some (v, some e)) ∨
         ((∃ p, readFailPercent failureRate md = some (p, none)) ∧
           ∃ cs e, readFailCodes md = some (cs, some e)))) :
    ∃ msg, ∀ handler : UnaryHandler Req Resp,
      unaryServerInterceptor failureRate ctx req handler w =
        some ((none, some (GoError.statusError codesInvalidArgument msg)), w) := by
  rcases hrej with hnone | ⟨md, hmd, hperc | ⟨⟨p, hp⟩, cs, e, hc⟩⟩
  · refine ⟨str "missing metadata", fun handler => ?_⟩
    unfold unaryServerInterceptor
    simp only [hnone, errMissingMetadata, statusError_invalidArgument]
  · obtain ⟨v, e, hve⟩ := hperc
    obtain ⟨msg, hmsg⟩ := readFailPercent_error failureRate md v e hve
    refine ⟨msg, fun handler => ?_⟩
    unfold unaryServerInterceptor
    simp only [hmd, hve, hmsg]
  · obtain ⟨msg, hmsg⟩ := (readFailCodes_spec md cs (some e) hc).2 e rfl
    refine ⟨msg, fun handler => ?_⟩
    unfold unaryServerInterceptor
    simp only [hmd, hp, hc, hmsg]

/-- The witness of C9 at `failpercent=abc`. -/
theorem C9_config_error_rejected_witness :
    readFailPercent 50 (sampleMD "abc" "14") =
        some (0, some (GoError.statusError codesInvalidArgument (str "failme ParseInt error"))) ∧
    ∃ msg, ∀ handler : UnaryHandler EchoRequest EchoResponse,
      unaryServerInterceptor 50 { incomingMD := some (sampleMD "abc" "14") } sampleReq
          handler (worldWithWord 7) =
        some ((none, some (GoError.statusError codesInvalidArgument msg)), worldWithWord 7) :=
  ⟨by decide,
    C9_config_error_rejected 50 { incomingMD := some (sampleMD "abc" "14") } sampleReq
      (worldWithWord 7)
      (Or.inr ⟨sampleMD "abc" "14", rfl,
        Or.inl ⟨0, GoError.statusError codesInvalidArgument (str "failme ParseInt error"),
          by decide⟩⟩)⟩

/-- C10: whenever `readFailCodes` returns without error, every code of the
    returned list is within 0..16. -/
theorem C10_codes_in_range (md : MD) (cs : List Nat)
    (h : readFailCodes md = some (cs, none)) :
    ∀ c ∈ cs, 0 ≤ c ∧ c ≤ 16 :=
  fun c hc => ⟨Nat.zero_le c, (readFailCodes_spec md cs none h).1 c hc⟩

/-- The witness of C10 at `failcodes=4,8,14`. -/
theorem C10_codes_in_range_witness :
    readFailCodes (sampleMD "50" "4,8,14") = some ([4, 8, 14], none) ∧
    ∀ c ∈ [4, 8, 14], 0 ≤ c ∧ c ≤ 16 :=
  ⟨by decide, C10_codes_in_range (sampleMD "50" "4,8,14") [4, 8, 14] (by decide)⟩

/-! ### Counters -/

/-- The code selection never panics and leaves the counters alone. -/
theorem selectCode_counters (fcs : List Nat) (w : World) :
    ∃ code w1, selectCode fcs w = some (code, w1) ∧
      w1.success = w.success ∧ w1.fail = w.fail := by
  match fcs with
  | [] => exact ⟨_, _, rfl, rfl, rfl⟩
  | [c] => exact ⟨c, w, rfl, rfl, rfl⟩
  | a :: b :: rest =>
    have hsel : selectCode (a :: b :: rest) w =
        returnAnySuppliedCode (a :: b :: rest) w := rfl
    exact ⟨_, _, hsel.trans (returnAnySuppliedCode_eq _ w (by simp)), rfl, rfl⟩

/-- An injected failure adds one to `fail`, modulo `2^64`, and nothing to
    `success`. -/
theorem injectFailure_counters {Resp : Type} (fcs : List Nat) (rp : Nat) (w : World) :
    ∃ (r : Option Resp × Option GoError) (w1 : World),
      injectFailure fcs rp w = some (r, w1) ∧
      w1.success = w.success ∧ w1.fail = atomicAdd w.fail 1 := by
  obtain ⟨code, w3, hsel, hs, hf⟩ :=
    selectCode_counters fcs { w with fail := atomicAdd w.fail 1 }
  refine ⟨(none, statusError code
      (interceptMessage (code % 4294967296) rp (atomicAdd w.fail 1))), w3, ?_, hs, hf⟩
  unfold injectFailure
  simp only [hsel]

/-- One validated call with the echo handler, with both counters below the
    largest `uint64`: the branch taken and the one counter it adds one to. -/
theorem echo_call_counters (failureRate : Int) (ctx : Context) (req : EchoRequest)
    (w : World) (md : MD) (p : Int) (fcs : List Nat)
    (hctx : ctx.incomingMD = some md)
    (hp : readFailPercent failureRate md = some (p, none))
    (hc : readFailCodes md = some (fcs, none))
    (hs : w.success + 1 < 18446744073709551616)
    (hf : w.fail + 1 < 18446744073709551616) :
    ∃ r w1, unaryServerInterceptor failureRate ctx req UnaryEcho w = some (r, w1) ∧
      ((FastRandN 100 w).1 < uint32 p →
        w1.fail = w.fail + 1 ∧ w1.success = w.success) ∧
      (¬ (FastRandN 100 w).1 < uint32 p →
        w1.success = w.success + 1 ∧ w1.fail = w.fail) := by
  obtain ⟨hds, hdf⟩ := FastRandN_snd_counters 100 w
  by_cases hlt : (FastRandN 100 w).1 < uint32 p
  · obtain ⟨r, w1, hinj, hs1, hf1⟩ :=
      @injectFailure_counters EchoResponse fcs (FastRandN 100 w).1 (FastRandN 100 w).2
    refine ⟨r, w1, ?_, ?_, fun h => absurd hlt h⟩
    · unfold unaryServerInterceptor
      simp only [hctx, hp, hc]
      rw [if_pos hlt]
      exact hinj
    · intro _
      rw [hf1, hs1, hds, hdf]
      unfold atomicAdd
      exact ⟨Nat.mod_eq_of_lt hf, rfl⟩
  · refine ⟨(UnaryEcho ctx req (FastRandN 100 w).2).1,
      (UnaryEcho ctx req (FastRandN 100 w).2).2, ?_, fun h => absurd h hlt, ?_⟩
    · unfold unaryServerInterceptor
      simp only [hctx, hp, hc]
      rw [if_neg hlt]
    · intro _
      simp only [UnaryEcho, hds, hdf]
      unfold atomicAdd
      exact ⟨Nat.mod_eq_of_lt hs, trivial⟩

/-- Validated calls run one after another without a panic; the counters
    never go down and their sum goes up by the number of calls, as long as
    neither counter can reach `2^64`. -/
theorem runCalls_counters (failureRate : Int) (calls : List (Context × EchoRequest)) :
    ∀ w : World,
      (∀ call ∈ calls, passesValidation failureRate call.1) →
      w.success + calls.length < 18446744073709551616 →
      w.fail + calls.length < 18446744073709551616 →
      ∃ w1, runCalls failureRate calls w = some w1 ∧
        w1.success + w1.fail = w.success + w.fail + calls.length ∧
        w.success ≤ w1.success ∧ w.fail ≤ w1.fail := by
  induction calls with
  | nil =>
    intro w _ _ _
    exact ⟨w, rfl, rfl, Nat.le_refl _, Nat.le_refl _⟩
  | cons call rest ih =>
    intro w hvalid hs hf
    obtain ⟨ctx, req⟩ := call
    obtain ⟨md, p, fcs, hctx, hp, hc⟩ := hvalid (ctx, req) (List.mem_cons_self _ _)
    simp only [List.length_cons] at hs hf
    obtain ⟨r, wa, hcall, hlt, hge⟩ :=
      echo_call_counters failureRate ctx req w md p fcs hctx hp hc (by omega) (by omega)
    have hstep : (wa.fail = w.fail + 1 ∧ wa.success = w.success) ∨
        (wa.success = w.success + 1 ∧ wa.fail = w.fail) := by
      by_cases h : (FastRandN 100 w).1 < uint32 p
      · exact Or.inl (hlt h)
      · exact Or.inr (hge h)
    obtain ⟨wb, hrun, hsum, hms, hmf⟩ :=
      ih wa (fun c hcm => hvalid c (List.mem_cons_of_mem _ hcm))
        (by rcases hstep with h | h <;> omega) (by rcases hstep with h | h <;> omega)
    refine ⟨wb, ?_, ?_, ?_, ?_⟩
    · simp only [runCalls, hcall]
      exact hrun
    · simp only [List.length_cons]
      rcases hstep with h | h <;> omega
    · rcases hstep with h | h <;> omega
    · rcases hstep with h | h <;> omega

/-- C8, as stated, fails in two places. With `fail` at the largest `uint64`
    an injected failure wraps it to 0, so the counter goes down. And with the
    unvalidated default -1 and no "failpercent" key the call passes
    validation, the draw 99 is not below the probability -1, yet `fail`
    goes up and `success` does not. -/
theorem C8_counters_counterexample :
    (unaryServerInterceptor 50 { incomingMD := some (sampleMD "100" "14") } sampleReq
        UnaryEcho { success := 0, fail := 18446744073709551615, rand := fun _ => 0 }).map
      (fun res => (res.2.success, res.2.fail)) = some (0, 0) ∧
    readFailPercent (-1) [] = some (-1, none) ∧
    readFailCodes [] = some ([], none) ∧
    (FastRandN 100 (worldWithWord 4294967295)).1 = 99 ∧
    (unaryServerInterceptor (-1) { incomingMD := some [] } sampleReq
        UnaryEcho (worldWithWord 4294967295)).map
      (fun res => (res.2.success, res.2.fail)) = some (0, 1) := by
  refine ⟨?_, ?_, ?_, ?_, ?_⟩ <;> decide

/-- C8, amended: with the echo handler installed, calls that pass metadata
    validation, run one after another from a state in which neither counter
    can reach `2^64`, never panic; each call adds one to exactly one counter,
    and when its resolved probability is within 0..100 that counter is `fail`
    if the draw is below the probability and `success` otherwise. So neither
    counter decreases and `success + fail` goes up by the number of calls. -/
theorem C8_counters_one_increment (failureRate : Int)
    (calls : List (Context × EchoRequest)) (w : World)
    (hvalid : ∀ call ∈ calls, passesValidation failureRate call.1)
    (hs : w.success + calls.length < 18446744073709551616)
    (hf : w.fail + calls.length < 18446744073709551616) :
    (∃ w1, runCalls failureRate calls w = some w1 ∧
      w1.success + w1.fail = w.success + w.fail + calls.length ∧
      w.success ≤ w1.success ∧ w.fail ≤ w1.fail) ∧
    (∀ pre ctx req post, calls = pre ++ (ctx, req) :: post →
      ∃ wa r wb, runCalls failureRate pre w = some wa ∧
        unaryServerInterceptor failureRate ctx req UnaryEcho wa = some (r, wb) ∧
        ((wb.fail = wa.fail + 1 ∧ wb.success = wa.success) ∨
          (wb.success = wa.success + 1 ∧ wb.fail = wa.fail)) ∧
        ∀ md p, ctx.incomingMD = some md →
          readFailPercent failureRate md = some (p, none) → 0 ≤ p → p ≤ 100 →
          (((FastRandN 100 wa).1 : Int) < p →
            wb.fail = wa.fail + 1 ∧ wb.success = wa.success) ∧
          (¬ ((FastRandN 100 wa).1 : Int) < p →
            wb.success = wa.success + 1 ∧ wb.fail = wa.fail)) := by
  refine ⟨runCalls_counters failureRate calls w hvalid hs hf, ?_⟩
  intro pre ctx req post hsplit
  have hlen : calls.length = pre.length + (post.length + 1) := by
    rw [hsplit, List.length_append, List.length_cons]
  have hpre : ∀ call ∈ pre, passesValidation failureRate call.1 := by
    intro call hmem
    apply hvalid
    rw [hsplit]
    exact List.mem_append_left _ hmem
  obtain ⟨wa, hrun, hsum, hms, hmf⟩ :=
    runCalls_counters failureRate pre w hpre (by omega) (by omega)
  obtain ⟨md0, p0, fcs0, hctx0, hp0, hc0⟩ := hvalid (ctx, req) (by
    rw [hsplit]
    exact List.mem_append_right _ (List.mem_cons_self _ _))
  obtain ⟨r, wb, hcall, hlt, hge⟩ :=
    echo_call_counters failureRate ctx req wa md0 p0 fcs0 hctx0 hp0 hc0
      (by omega) (by omega)
  refine ⟨wa, r, wb, hrun, hcall, ?_, ?_⟩
  · by_cases h : (FastRandN 100 wa).1 < uint32 p0
    · exact Or.inl (hlt h)
    · exact Or.inr (hge h)
  · intro md p hctx hp h0 h100
    have hmd : md0 = md := Option.some.inj (hctx0.symm.trans hctx)
    subst hmd
    have hpp : p0 = p := by
      have := hp0.symm.trans hp
      simp only [Option.some.injEq, Prod.mk.injEq] at this
      exact this.1
    subst hpp
    have hu : (uint32 p0 : Int) = p0 := uint32_of_nonneg_lt p0 h0 (by omega)
    constructor
    · intro h
      exact hlt (by omega)
    · intro h
      exact hge (by omega)

/-- The witness of C8 on two calls, `failpercent=100` then `failpercent=0`. -/
theorem C8_counters_one_increment_witness :
    ∃ w1, runCalls 50
        [({ incomingMD := some (sampleMD "100" "14") }, sampleReq),
         ({ incomingMD := some (sampleMD "0" "14") }, sampleReq)] (worldWithWord 7) = some w1 ∧
      w1.success + w1.fail = (worldWithWord 7).success + (worldWithWord 7).fail + 2 ∧
      (worldWithWord 7).success ≤ w1.success ∧ (worldWithWord 7).fail ≤ w1.fail :=
  (C8_counters_one_increment 50
    [({ incomingMD := some (sampleMD "100" "14") }, sampleReq),
     ({ incomingMD := some (sampleMD "0" "14") }, sampleReq)] (worldWithWord 7)
    (by
      intro call hmem
      simp only [List.mem_cons, List.mem_singleton, List.not_mem_nil, or_false] at hmem
      rcases hmem with h | h
      · subst h
        exact ⟨sampleMD "100" "14", 100, [14], rfl, by decide, by decide⟩
      · subst h
        exact ⟨sampleMD "0" "14", 0, [14], rfl, by decide, by decide⟩)
    (by decide) (by decide)).1

/-! ### Strings, rendering and parsing -/

/-- A string without the separator splits into itself alone. -/
theorem stringsSplit_of_not_contains (s : GoString) (sep : Nat)
    (h : stringsContains s sep = false) : stringsSplit s sep = [s] := by
  induction s with
  | nil => rfl
  | cons c rest ih =>
    unfold stringsContains at h
    by_cases hc : c = sep
    · rw [if_pos hc] at h
      exact absurd h (by simp)
    · rw [if_neg hc] at h
      unfold stringsSplit
      rw [if_neg hc, ih h]

/-- Splitting goes through a separator that follows a separator-free piece. -/
theorem stringsSplit_append_sep (x s : GoString) (sep : Nat)
    (h : stringsContains x sep = false) :
    stringsSplit (x ++ sep :: s) sep = x :: stringsSplit s sep := by
  induction x with
  | nil =>
    simp only [List.nil_append]
    rw [stringsSplit, if_pos rfl]
  | cons c rest ih =>
    unfold stringsContains at h
    by_cases hc : c = sep
    · rw [if_pos hc] at h
      exact absurd h (by simp)
    · rw [if_neg hc] at h
      simp only [List.cons_append]
      rw [stringsSplit, if_neg hc, ih h]

/-- A string with a separator in it contains the separator. -/
theorem stringsContains_append_sep (x s : GoString) (sep : Nat) :
    stringsContains (x ++ sep :: s) sep = true := by
  induction x with
  | nil =>
    simp only [List.nil_append]
    rw [stringsContains, if_pos rfl]
  | cons c rest ih =>
    simp only [List.cons_append]
    rw [stringsContains]
    by_cases hc : c = sep
    · rw [if_pos hc]
    · rw [if_neg hc, ih]

/-- Splitting the join of separator-free pieces gives the pieces back. -/
theorem stringsSplit_join (xs : List GoString) (sep : Nat) (hne : xs ≠ [])
    (h : ∀ x ∈ xs, stringsContains x sep = false) :
    stringsSplit (stringsJoin xs sep) sep = xs := by
  induction xs with
  | nil => exact absurd rfl hne
  | cons x rest ih =>
    cases rest with
    | nil => exact stringsSplit_of_not_contains x sep (h x (List.mem_cons_self _ _))
    | cons y rest2 =>
      rw [stringsJoin, stringsSplit_append_sep x _ sep (h x (List.mem_cons_self _ _)),
        ih (by simp) (fun z hz => h z (List.mem_cons_of_mem _ hz))]

/-- The rendering of a code within 0..16 has no comma, parses back to the
    code, and the code passes the conversion to `uint32` unchanged. -/
theorem code_rendering (c : Nat) (hc : c ≤ 16) :
    ParseInt (fmtD c) = ((c : Int), none) ∧ stringsContains (fmtD c) 44 = false ∧
      uint32 (c : Int) = c := by
  have hall : ∀ k : Fin 17, ParseInt (fmtD k.val) = ((k.val : Int), none) ∧
      stringsContains (fmtD k.val) 44 = false ∧ uint32 (k.val : Int) = k.val := by decide
  exact hall ⟨c, by omega⟩

/-- The rendering of a percentage within 0..100 parses back to it. -/
theorem percent_rendering (p : Int) (h0 : 0 ≤ p) (h100 : p ≤ 100) :
    ParseInt (fmtInt p) = (p, none) := by
  have hall : ∀ k : Fin 101, ParseInt (fmtInt (k.val : Int)) = ((k.val : Int), none) := by
    decide
  have h := hall ⟨p.toNat, by omega⟩
  have hp : ((p.toNat : Nat) : Int) = p := Int.toNat_of_nonneg h0
  simp only [hp] at h
  exact h

/-- The loop of `readFailCodes` over the renderings of codes within 0..16
    appends exactly these codes and returns no error. -/
theorem readFailCodesLoop_renderings (cs : List Nat) :
    ∀ acc : List Nat, (∀ c ∈ cs, c ≤ 16) →
      readFailCodesLoop (cs.map fmtD) acc = (acc ++ cs, none) := by
  induction cs with
  | nil =>
    intro acc _
    simp [readFailCodesLoop]
  | cons c rest ih =>
    intro acc h
    obtain ⟨hparse, _, hu⟩ := code_rendering c (h c (List.mem_cons_self _ _))
    have hval : validateCodeUint32 c = none := by
      unfold validateCodeUint32
      rw [if_neg (by have := h c (List.mem_cons_self _ _); omega)]
    simp only [List.map_cons, readFailCodesLoop, hparse, hu, hval]
    rw [ih (acc ++ [c]) (fun z hz => h z (List.mem_cons_of_mem _ hz))]
    simp

/-! ### The metadata of the client -/

/-- The metadata that the client interceptor attaches: one value under each
    of the two keys. -/
theorem unaryClientInterceptor_eq (failpercent : Int) (failcodes : GoString) :
    unaryClientInterceptor failpercent failcodes =
      some [(str "failpercent", [fmtInt failpercent]), (str "failcodes", [failcodes])] := by
  have h1 : stringsToLower (str "failpercent") = str "failpercent" := by decide
  have h2 : stringsToLower (str "failcodes") = str "failcodes" := by decide
  have h3 : ¬ str "failpercent" = str "failcodes" := by decide
  simp only [unaryClientInterceptor, metadataPairs, metadataPairsLoop, MD.appendValue, h1, h2,
    if_neg h3]

/-- Reading the two keys of a two-entry metadata. -/
theorem two_key_get (a b : List GoString) :
    MD.get [(str "failpercent", a), (str "failcodes", b)] (str "failpercent") = some a ∧
    MD.get [(str "failpercent", a), (str "failcodes", b)] (str "failcodes") = some b := by
  have h1 : (str "failpercent" == str "failpercent") = true := by decide
  have h2 : (str "failcodes" == str "failpercent") = false := by decide
  have h3 : (str "failcodes" == str "failcodes") = true := by decide
  constructor
  · simp only [MD.get, List.lookup, h1]
  · simp only [MD.get, List.lookup, h2, h3]

/-- C11: for a probability `p` within 0..100 and a non-empty list `cs` of
    codes within 0..16, the metadata that `unaryClientInterceptor` builds from
    `p` and the comma-joined decimal renderings of `cs` makes `readFailPercent`
    return `p`, whatever the default, and `readFailCodes` return `cs` itself,
    both without error. -/
theorem C11_client_server_round_trip (dflt p : Int) (cs : List Nat)
    (h0 : 0 ≤ p) (h100 : p ≤ 100) (hne : cs ≠ []) (hcs : ∀ c ∈ cs, c ≤ 16) :
    ∃ md, unaryClientInterceptor p (stringsJoin (cs.map fmtD) 44) = some md ∧
      readFailPercent dflt md = some (p, none) ∧
      readFailCodes md = some (cs, none) := by
  refine ⟨_, unaryClientInterceptor_eq p _, ?_, ?_⟩
  · have hget := (two_key_get [fmtInt p] [stringsJoin (cs.map fmtD) 44]).1
    have hval : validateFailurePercent p = none := by
      unfold validateFailurePercent
      rw [if_neg (by omega)]
    unfold readFailPercent
    simp only [hget, List.getElem?_cons_zero, percent_rendering p h0 h100, hval]
  · have hget := (two_key_get [fmtInt p] [stringsJoin (cs.map fmtD) 44]).2
    unfold readFailCodes
    simp only [hget, List.getElem?_cons_zero]
    match cs, hne, hcs with
    | [c], _, hcs =>
      obtain ⟨hparse, hcont, hu⟩ := code_rendering c (hcs c (List.mem_cons_self _ _))
      have hval : validateCodeUint32 c = none := by
        unfold validateCodeUint32
        rw [if_neg (by have := hcs c (List.mem_cons_self _ _); omega)]
      simp only [List.map_cons, List.map_nil, stringsJoin, hcont, hparse, hu, hval,
        if_true, List.nil_append]
    | a :: b :: rest, _, hcs =>
      have hcont : stringsContains (stringsJoin ((a :: b :: rest).map fmtD) 44) 44 = true := by
        simp only [List.map_cons, stringsJoin]
        exact stringsContains_append_sep _ _ _
      have hsplit := stringsSplit_join ((a :: b :: rest).map fmtD) 44 (by simp)
        (by
          intro x hx
          obtain ⟨c, hc, rfl⟩ := List.mem_map.mp hx
          exact (code_rendering c (hcs c hc)).2.1)
      rw [if_neg (by rw [hcont]; simp), hsplit,
        readFailCodesLoop_renderings (a :: b :: rest) [] hcs]
      simp

/-- The witness of C11 at the probability 50 and the codes 4, 8, 14. -/
theorem C11_client_server_round_trip_witness :
    ∃ md, unaryClientInterceptor 50 (stringsJoin ([4, 8, 14].map fmtD) 44) = some md ∧
      readFailPercent 7 md = some (50, none) ∧
      readFailCodes md = some ([4, 8, 14], none) :=
  C11_client_server_round_trip 7 50 [4, 8, 14] (by decide) (by decide) (by decide)
    (by decide)

/-! ### The injected failure -/

/-- The code selection on validated codes never panics, selects a code of
    at most 16 and leaves the counters alone. -/
theorem selectCode_le_16 (fcs : List Nat) (w : World) (h : ∀ c ∈ fcs, c ≤ 16) :
    ∃ code w1, selectCode fcs w = some (code, w1) ∧ code ≤ 16 ∧
      w1.success = w.success ∧ w1.fail = w.fail := by
  match fcs, h with
  | [], _ =>
    have hb := anyRandomCode_bounds w
    exact ⟨(anyRandomCode w).1, (anyRandomCode w).2, rfl,
      Nat.le_trans hb.2 (by decide), rfl, rfl⟩
  | [c], h => exact ⟨c, w, rfl, h c (List.mem_singleton.mpr rfl), rfl, rfl⟩
  | a :: b :: rest, h =>
    have hsel : selectCode (a :: b :: rest) w =
        returnAnySuppliedCode (a :: b :: rest) w := rfl
    exact ⟨_, _, hsel.trans (returnAnySuppliedCode_eq _ w (by simp)),
      h _ (List.get_mem _ _ _), rfl, rfl⟩

/-- The three numbers of the diagnostic message occur in it. -/
theorem interceptMessage_infix (code rp f : Nat) :
    fmtD code <:+: interceptMessage code rp f ∧
    fmtD rp <:+: interceptMessage code rp f ∧
    fmtD f <:+: interceptMessage code rp f := by
  refine ⟨⟨str "intercept failure code:", str " rp:" ++ fmtD rp ++ str " fail:" ++ fmtD f, ?_⟩,
    ⟨str "intercept failure code:" ++ fmtD code ++ str " rp:", str " fail:" ++ fmtD f, ?_⟩,
    ⟨str "intercept failure code:" ++ fmtD code ++ str " rp:" ++ fmtD rp ++ str " fail:", [], ?_⟩⟩
  all_goals simp only [interceptMessage, List.append_assoc, List.append_nil]

/-- C12, as stated, fails: at `failpercent=77`, `failcodes=14` with the draw 0
    the message of the injected failure is "intercept failure code:14 rp:0
    fail:1", which has no digit 7 in it, and it is the same message as at
    `failpercent=100`. -/
theorem C12_message_counterexample :
    (unaryServerInterceptor 50 { incomingMD := some (sampleMD "77" "14") } sampleReq
        UnaryEcho (worldWithWord 0)).map (fun res => res.1) =
      some (none, some (GoError.statusError 14
        (str "intercept failure code:14 rp:0 fail:1"))) ∧
    readFailPercent 50 (sampleMD "77" "14") = some (77, none) ∧
    ¬ (fmtD 77 <:+: str "intercept failure code:14 rp:0 fail:1") ∧
    (unaryServerInterceptor 50 { incomingMD := some (sampleMD "100" "14") } sampleReq
        UnaryEcho (worldWithWord 0)).map (fun res => res.1) =
      some (none, some (GoError.statusError 14
        (str "intercept failure code:14 rp:0 fail:1"))) := by
  refine ⟨?_, ?_, ?_, ?_⟩ <;> decide

/-- C12, amended: on the fail path the diagnostic message is built from the
    selected code, the random draw and the value of the fail counter after
    this call's increment, and the decimal rendering of each occurs in it;
    the resolved probability is not part of the message. When the selected
    code is not 0 the returned status error carries this message. -/
theorem C12_message_contents {Req Resp : Type} (failureRate : Int) (ctx : Context)
    (req : Req) (handler : UnaryHandler Req Resp) (w : World) (md : MD) (p : Int)
    (fcs : List Nat)
    (hctx : ctx.incomingMD = some md)
    (hp : readFailPercent failureRate md = some (p, none))
    (hc : readFailCodes md = some (fcs, none))
    (hfail : (FastRandN 100 w).1 < uint32 p) :
    ∃ code w3 res,
      selectCode fcs { (FastRandN 100 w).2 with fail := atomicAdd w.fail 1 } =
        some (code, w3) ∧
      unaryServerInterceptor failureRate ctx req handler w = some (res, w3) ∧
      w3.fail = atomicAdd w.fail 1 ∧
      (code ≠ 0 → res = (none, some (GoError.statusError code
        (interceptMessage code (FastRandN 100 w).1 (atomicAdd w.fail 1))))) ∧
      fmtD code <:+: interceptMessage code (FastRandN 100 w).1 (atomicAdd w.fail 1) ∧
      fmtD (FastRandN 100 w).1 <:+:
        interceptMessage code (FastRandN 100 w).1 (atomicAdd w.fail 1) ∧
      fmtD (atomicAdd w.fail 1) <:+:
        interceptMessage code (FastRandN 100 w).1 (atomicAdd w.fail 1) := by
  have hle := (readFailCodes_spec md fcs none hc).1
  obtain ⟨code, w3, hsel, hcode, _, hf⟩ :=
    selectCode_le_16 fcs { (FastRandN 100 w).2 with fail := atomicAdd w.fail 1 } hle
  have hmod : code % 4294967296 = code := Nat.mod_eq_of_lt (by omega)
  have hinf := interceptMessage_infix code (FastRandN 100 w).1 (atomicAdd w.fail 1)
  refine ⟨code, w3, (none, statusError code
    (interceptMessage code (FastRandN 100 w).1 (atomicAdd w.fail 1))), hsel, ?_, hf, ?_,
    hinf.1, hinf.2.1, hinf.2.2⟩
  · unfold unaryServerInterceptor
    simp only [hctx, hp, hc]
    rw [if_pos hfail]
    unfold injectFailure
    have hfw : (FastRandN 100 w).2.fail = w.fail := (FastRandN_snd_counters 100 w).2
    simp only [hfw, hsel, hmod]
  · intro hne
    rw [statusError_of_ne_zero _ _ hne]

/-- The witness of C12 at `failpercent=100`, `failcodes=14`. -/
theorem C12_message_contents_witness :
    ∃ code w3 res,
      selectCode [14] { (FastRandN 100 (worldWithWord 7)).2 with
        fail := atomicAdd (worldWithWord 7).fail 1 } = some (code, w3) ∧
      unaryServerInterceptor 50 { incomingMD := some (sampleMD "100" "14") } sampleReq
        UnaryEcho (worldWithWord 7) = some (res, w3) ∧
      w3.fail = atomicAdd (worldWithWord 7).fail 1 ∧
      (code ≠ 0 → res = (none, some (GoError.statusError code
        (interceptMessage code (FastRandN 100 (worldWithWord 7)).1
          (atomicAdd (worldWithWord 7).fail 1))))) ∧
      fmtD code <:+: interceptMessage code (FastRandN 100 (worldWithWord 7)).1
        (atomicAdd (worldWithWord 7).fail 1) ∧
      fmtD (FastRandN 100 (worldWithWord 7)).1 <:+:
        interceptMessage code (FastRandN 100 (worldWithWord 7)).1
          (atomicAdd (worldWithWord 7).fail 1) ∧
      fmtD (atomicAdd (worldWithWord 7).fail 1) <:+:
        interceptMessage code (FastRandN 100 (worldWithWord 7)).1
          (atomicAdd (worldWithWord 7).fail 1) :=
  C12_message_contents 50 { incomingMD := some (sampleMD "100" "14") } sampleReq UnaryEcho
    (worldWithWord 7) (sampleMD "100" "14") 100 [14] rfl (by decide) (by decide) (by decide)

/-- The else-branch: once both resolvers returned without error and the
    draw is not below `uint32(fp)`, which for a probability within 0..100 is
    the draw not being below the probability, the interceptor returns exactly
    what the handler returns for the same context and request, response and
    error alike, whatever the handler. -/
theorem pass_branch_returns_handler {Req Resp : Type} (failureRate : Int)
    (ctx : Context) (req : Req) (handler : UnaryHandler Req Resp) (w : World) (md : MD)
    (p : Int) (fcs : List Nat)
    (hctx : ctx.incomingMD = some md)
    (hp : readFailPercent failureRate md = some (p, none))
    (hc : readFailCodes md = some (fcs, none)) :
    (¬ (FastRandN 100 w).1 < uint32 p →
      unaryServerInterceptor failureRate ctx req handler w =
        some (handler ctx req (FastRandN 100 w).2)) ∧
    (0 ≤ p → p ≤ 100 → ¬ ((FastRandN 100 w).1 : Int) < p →
      unaryServerInterceptor failureRate ctx req handler w =
        some (handler ctx req (FastRandN 100 w).2)) := by
  have hpass : ¬ (FastRandN 100 w).1 < uint32 p →
      unaryServerInterceptor failureRate ctx req handler w =
        some (handler ctx req (FastRandN 100 w).2) := by
    intro h
    unfold unaryServerInterceptor
    simp only [hctx, hp, hc]
    rw [if_neg h]
  refine ⟨hpass, ?_⟩
  intro h0 h100 h
  apply hpass
  have hu : (uint32 p : Int) = p := uint32_of_nonneg_lt p h0 (by omega)
  omega

/-- C13: started with the flag `failurePercent=-1` and called with metadata
    that has no "failpercent" key, the probability resolves to -1 with no
    error; the draw 99 is not below it, yet the interceptor does not return
    what the handler returns: `uint32(-1)` is 4294967295, the failure is
    injected with the code 15, the same for every handler, while with the
    probability 0 the same draw returns the error of the handler. -/
theorem C13_negative_default_skips_handler (handler : UnaryHandler EchoRequest EchoResponse) :
    readFailPercent (-1) [] = some (-1, none) ∧
    readFailCodes [] = some ([], none) ∧
    (FastRandN 100 (worldWithWord 4294967295)).1 = 99 ∧
    ¬ ((99 : Int) < -1) ∧
    uint32 (-1) = 4294967295 ∧
    mainInterceptor (-1) { incomingMD := some [] } sampleReq handler
        (worldWithWord 4294967295) =
      some ((none, some (GoError.statusError 15
        (str "intercept failure code:15 rp:99 fail:1"))),
        { success := 0, fail := 1, rand := fun _ => 4294967295 }) ∧
    mainInterceptor 0 { incomingMD := some [] } sampleReq failingHandler
        (worldWithWord 4294967295) =
      some ((none, some (GoError.statusError 13 (str "handler failed"))),
        worldWithWord 4294967295) := by
  have hp : readFailPercent (-1) [] = some (-1, none) := by decide
  have hp0 : readFailPercent 0 [] = some (0, none) := by decide
  have hc : readFailCodes [] = some ([], none) := by decide
  have hlt : (FastRandN 100 (worldWithWord 4294967295)).1 < uint32 (-1) := by decide
  have hge : ¬ (FastRandN 100 (worldWithWord 4294967295)).1 < uint32 0 := by decide
  refine ⟨hp, hc, by decide, by decide, by decide, ?_, ?_⟩
  · unfold mainInterceptor unaryServerInterceptor
    simp only [hp, hc]
    rw [if_pos hlt]
    rfl
  · unfold mainInterceptor unaryServerInterceptor
    simp only [hp0, hc]
    rw [if_neg hge]
    rfl

/-! ### What the code loop returns -/

/-- The loop of `readFailCodes` returns the codes collected before, followed
    by the codes of the first `k` segments: all of them when it returns no
    error, and those before the failing segment when it returns one. -/
theorem readFailCodesLoop_prefix (parts : List GoString) :
    ∀ acc : List Nat, ∃ k, k ≤ parts.length ∧
      (readFailCodesLoop parts acc).1 =
        acc ++ (parts.take k).map (fun seg => uint32 (ParseInt seg).1) ∧
      ((readFailCodesLoop parts acc).2 = none → k = parts.length) ∧
      ((readFailCodesLoop parts acc).2 ≠ none → k < parts.length) := by
  induction parts with
  | nil =>
    intro acc
    exact ⟨0, Nat.le_refl _, by simp [readFailCodesLoop], fun _ => rfl,
      fun h => absurd rfl h⟩
  | cons part parts ih =>
    intro acc
    unfold readFailCodesLoop
    simp only [statusError_invalidArgument]
    split
    · exact ⟨0, Nat.zero_le _, by simp, fun h => absurd h (by simp),
        fun _ => Nat.succ_pos _⟩
    · rename_i i hparse
      split
      · exact ⟨0, Nat.zero_le _, by simp, fun h => absurd h (by simp),
          fun _ => Nat.succ_pos _⟩
      · obtain ⟨k, hk, hfst, hnone, hsome⟩ := ih (acc ++ [uint32 i])
        refine ⟨k + 1, Nat.succ_le_succ hk, ?_, ?_, ?_⟩
        · rw [hfst]
          simp [hparse]
        · intro h
          rw [hnone h]
          rfl
        · intro h
          exact Nat.succ_lt_succ (hsome h)

/-- An error of `readFailPercent` carries one of its two messages. -/
theorem readFailPercent_error_msg (failureRate : Int) (md : MD) (v : Int) (e : GoError)
    (h : readFailPercent failureRate md = some (v, some e)) :
    e = GoError.statusError codesInvalidArgument (str "failme ParseInt error") ∨
    e = GoError.statusError codesInvalidArgument
      (str "failme validateFailurePercent error") := by
  unfold readFailPercent at h
  simp only [statusError_invalidArgument] at h
  split at h
  · split at h
    · exact absurd h (by simp)
    · split at h
      · simp only [Option.some.injEq, Prod.mk.injEq] at h
        exact Or.inl h.2.symm
      · split at h
        · simp only [Option.some.injEq, Prod.mk.injEq] at h
          exact Or.inr h.2.symm
        · simp at h
  · simp at h

/-- An error of the loop of `readFailCodes` carries one of its two messages. -/
theorem readFailCodesLoop_error_msg (parts : List GoString) :
    ∀ (acc : List Nat) (e : GoError), (readFailCodesLoop parts acc).2 = some e →
      e = GoError.statusError codesInvalidArgument (str "failcodes ParseInt error") ∨
      e = GoError.statusError codesInvalidArgument (str "failcodes validate error") := by
  induction parts with
  | nil =>
    intro acc e h
    simp [readFailCodesLoop] at h
  | cons part parts ih =>
    intro acc e h
    unfold readFailCodesLoop at h
    simp only [statusError_invalidArgument] at h
    split at h
    · exact Or.inl (Option.some.inj h).symm
    · split at h
      · exact Or.inr (Option.some.inj h).symm
      · exact ih _ e h

/-- The function `readFailCodes` is its two branches under the first value. -/
theorem readFailCodes_branches (md : MD) (fc0 : GoString) (rest : List GoString)
    (hget : md.get (str "failcodes") = some (fc0 :: rest)) :
    readFailCodes md =
      some (if stringsContains fc0 44 = false then noCommaBranch fc0 else splitBranch fc0) := by
  unfold readFailCodes noCommaBranch splitBranch
  simp only [hget, List.getElem?_cons_zero]
  by_cases hcont : stringsContains fc0 44 = false
  · rw [if_pos hcont, if_pos hcont]
    split
    · rfl
    · split
      · rfl
      · rfl
  · rw [if_neg hcont, if_neg hcont]

/-- Without a comma the two branches of `readFailCodes` return the same. -/
theorem noCommaBranch_eq_splitBranch (fc0 : GoString)
    (hno : stringsContains fc0 44 = false) : noCommaBranch fc0 = splitBranch fc0 := by
  unfold noCommaBranch splitBranch
  rw [stringsSplit_of_not_contains fc0 44 hno]
  simp only [readFailCodesLoop]

/-- Every result of `readFailCodes` on a present key is that of the loop
    over the segments of the first value. -/
theorem readFailCodes_eq_loop (md : MD) (fc0 : GoString) (rest : List GoString)
    (hget : md.get (str "failcodes") = some (fc0 :: rest)) :
    readFailCodes md = some (readFailCodesLoop (stringsSplit fc0 44) []) := by
  rw [readFailCodes_branches md fc0 rest hget]
  by_cases hcont : stringsContains fc0 44 = false
  · rw [if_pos hcont, noCommaBranch_eq_splitBranch fc0 hcont]
    rfl
  · rw [if_neg hcont]
    rfl

/-- A present key under which `readFailCodes` returns has a first value. -/
theorem readFailCodes_some_cases (md : MD) (r : List Nat × Option GoError)
    (h : readFailCodes md = some r) :
    (md.get (str "failcodes") = none ∧ r = ([], none)) ∨
    ∃ fc0 rest, md.get (str "failcodes") = some (fc0 :: rest) := by
  cases hget : md.get (str "failcodes") with
  | none =>
    left
    unfold readFailCodes at h
    simp only [hget] at h
    exact ⟨rfl, (Option.some.inj h).symm⟩
  | some values =>
    cases values with
    | nil =>
      unfold readFailCodes at h
      simp [hget] at h
    | cons fc0 rest => exact Or.inr ⟨fc0, rest, rfl⟩

/-- The loop of `readFailCodes` run with its index never steps outside
    `parts` and returns what the loop over the remaining segments returns. -/
theorem readFailCodesFrom_eq (parts : List GoString) :
    ∀ (n i : Nat) (cs : List Nat), parts.length - i = n →
      readFailCodesFrom parts i cs = some (readFailCodesLoop (parts.drop i) cs) := by
  intro n
  induction n with
  | zero =>
    intro i cs h
    have hge : parts.length ≤ i := by omega
    rw [readFailCodesFrom, if_neg (by omega), List.drop_eq_nil_of_le hge]
    rfl
  | succ n ih =>
    intro i cs h
    have hlt : i < parts.length := by omega
    rw [readFailCodesFrom, if_pos hlt, List.getElem?_eq_getElem hlt,
      List.drop_eq_getElem_cons hlt]
    simp only [readFailCodesLoop]
    rcases hparse : ParseInt parts[i] with ⟨c, err⟩
    cases err with
    | some e => rfl
    | none =>
      simp only []
      cases hval : validateCodeUint32 (uint32 c) with
      | some e => rfl
      | none => exact ih (i + 1) _ (by omega)

/-- The function `readFailPercent` panics exactly on a "failpercent" key
    with an empty value slice. -/
theorem readFailPercent_none_iff (dflt : Int) (md : MD) :
    readFailPercent dflt md = none ↔ md.get (str "failpercent") = some [] := by
  unfold readFailPercent
  cases hget : md.get (str "failpercent") with
  | none => simp
  | some values =>
    cases values with
    | nil => simp
    | cons t0 rest =>
      simp only [List.getElem?_cons_zero]
      rcases hparse : ParseInt t0 with ⟨i, err⟩
      cases err with
      | some e => simp
      | none =>
        simp only []
        cases validateFailurePercent i with
        | some e => simp
        | none => simp

/-- The function `readFailCodes` panics exactly on a "failcodes" key with an
    empty value slice. -/
theorem readFailCodes_none_iff (md : MD) :
    readFailCodes md = none ↔ md.get (str "failcodes") = some [] := by
  cases hget : md.get (str "failcodes") with
  | none =>
    unfold readFailCodes
    simp [hget]
  | some values =>
    cases values with
    | nil =>
      unfold readFailCodes
      simp [hget]
    | cons fc0 rest =>
      rw [readFailCodes_eq_loop md fc0 rest hget]
      simp

/-- The two resolvers never report the same error. -/
theorem resolver_errors_differ (failureRate : Int) (md : MD) (v : Int) (cs : List Nat)
    (e1 e2 : GoError)
    (h1 : readFailPercent failureRate md = some (v, some e1))
    (h2 : readFailCodes md = some (cs, some e2)) : e1 ≠ e2 := by
  have hm1 := readFailPercent_error_msg failureRate md v e1 h1
  have hm2 : e2 = GoError.statusError codesInvalidArgument (str "failcodes ParseInt error") ∨
      e2 = GoError.statusError codesInvalidArgument (str "failcodes validate error") := by
    rcases readFailCodes_some_cases md _ h2 with ⟨_, hr⟩ | ⟨fc0, rest, hget⟩
    · simp at hr
    · rw [readFailCodes_eq_loop md fc0 rest hget] at h2
      have hl := Option.some.inj h2
      exact readFailCodesLoop_error_msg _ [] e2 (by rw [hl])
  rcases hm1 with h | h <;> rcases hm2 with g | g <;> rw [h, g] <;> decide

/-- C14, as stated, fails: at `failcodes=4,abc` the function `readFailCodes`
    returns the error together with the list holding the code 4. -/
theorem C14_partial_codes_counterexample :
    readFailCodes [(str "failcodes", [str "4,abc"])] =
      some ([4], some (GoError.statusError codesInvalidArgument
        (str "failcodes ParseInt error"))) := by
  decide

/-- The loop of `readFailCodes` stops at the first segment that fails one of
    its two checks: it returns the codes collected before, followed by the
    codes of the first `k` segments, all of them accepted; with no error `k`
    is the number of segments, and with an error the segment at index `k`
    is there and is not accepted. -/
theorem readFailCodesLoop_first_failure (parts : List GoString) :
    ∀ acc : List Nat, ∃ k, k ≤ parts.length ∧
      (readFailCodesLoop parts acc).1 =
        acc ++ (parts.take k).map (fun seg => uint32 (ParseInt seg).1) ∧
      (∀ seg ∈ parts.take k, segmentAccepted seg = true) ∧
      ((readFailCodesLoop parts acc).2 = none → k = parts.length) ∧
      ((readFailCodesLoop parts acc).2 ≠ none →
        ∃ seg, parts[k]? = some seg ∧ segmentAccepted seg = false) := by
  induction parts with
  | nil =>
    intro acc
    exact ⟨0, Nat.le_refl _, by simp [readFailCodesLoop], by simp, fun _ => rfl,
      fun h => absurd rfl h⟩
  | cons part parts ih =>
    intro acc
    unfold readFailCodesLoop
    simp only [statusError_invalidArgument]
    rcases hparse : ParseInt part with ⟨c, err⟩
    cases err with
    | some e =>
      refine ⟨0, Nat.zero_le _, by simp, by simp, fun h => absurd h (by simp), fun _ => ?_⟩
      refine ⟨part, List.getElem?_cons_zero, ?_⟩
      unfold segmentAccepted
      rw [hparse]
    | none =>
      simp only []
      cases hval : validateCodeUint32 (uint32 c) with
      | some e =>
        refine ⟨0, Nat.zero_le _, by simp, by simp, fun h => absurd h (by simp), fun _ => ?_⟩
        refine ⟨part, List.getElem?_cons_zero, ?_⟩
        unfold segmentAccepted
        rw [hparse]
        simp only [hval]
      | none =>
        simp only []
        obtain ⟨k, hk, hfst, hacc, hnone, hsome⟩ := ih (acc ++ [uint32 c])
        have hpart : segmentAccepted part = true := by
          unfold segmentAccepted
          rw [hparse]
          simp only [hval]
        refine ⟨k + 1, Nat.succ_le_succ hk, ?_, ?_, ?_, ?_⟩
        · rw [hfst]
          simp [hparse]
        · intro seg hseg
          rw [List.take_succ_cons] at hseg
          rcases List.mem_cons.mp hseg with h1 | h1
          · rw [h1]
            exact hpart
          · exact hacc seg h1
        · intro h
          rw [hnone h]
          rfl
        · intro h
          obtain ⟨seg, hseg, hrej⟩ := hsome h
          exact ⟨seg, by rw [List.getElem?_cons_succ]; exact hseg, hrej⟩

/-- C14, amended: whenever `readFailCodes` returns an error, the list it
    returns alongside holds exactly the codes of the segments before the
    first segment that fails to parse or to validate: every segment before
    it is accepted, the segment at the index `len(cs)` is the failing one, so
    the list is empty when the first segment fails or the value has no
    comma. The interceptor hands none of it on: it rejects the call with that
    error and leaves the process state as it was. -/
theorem C14_error_codes_discarded (md : MD) (cs : List Nat) (e : GoError)
    (h : readFailCodes md = some (cs, some e)) :
    (∃ fc0 rest, md.get (str "failcodes") = some (fc0 :: rest) ∧
      cs = ((stringsSplit fc0 44).take cs.length).map (fun seg => uint32 (ParseInt seg).1) ∧
      (∀ seg ∈ (stringsSplit fc0 44).take cs.length, segmentAccepted seg = true) ∧
      (∃ seg, (stringsSplit fc0 44)[cs.length]? = some seg ∧ segmentAccepted seg = false) ∧
      (∀ seg0, (stringsSplit fc0 44)[0]? = some seg0 → segmentAccepted seg0 = false →
        cs = []) ∧
      (stringsContains fc0 44 = false → cs = [])) ∧
    (∀ (Req Resp : Type) (failureRate p : Int) (ctx : Context) (req : Req)
        (handler : UnaryHandler Req Resp) (w : World),
      ctx.incomingMD = some md → readFailPercent failureRate md = some (p, none) →
      unaryServerInterceptor failureRate ctx req handler w = some ((none, some e), w)) := by
  constructor
  · rcases readFailCodes_some_cases md _ h with ⟨_, hr⟩ | ⟨fc0, rest, hget⟩
    · simp at hr
    · refine ⟨fc0, rest, hget, ?_⟩
      have hloop := readFailCodes_eq_loop md fc0 rest hget
      rw [h] at hloop
      have hl := (Option.some.inj hloop).symm
      obtain ⟨k, hk, hfst, hacc, _, hsome⟩ :=
        readFailCodesLoop_first_failure (stringsSplit fc0 44) []
      rw [hl] at hfst hsome
      simp only [List.nil_append] at hfst
      have hlen : cs.length = k := by
        rw [hfst, List.length_map, List.length_take]
        omega
      obtain ⟨seg, hseg, hrej⟩ := hsome (by simp)
      have hfirst : ∀ seg0, (stringsSplit fc0 44)[0]? = some seg0 →
          segmentAccepted seg0 = false → cs = [] := by
        intro seg0 h0 hrej0
        apply List.length_eq_zero.mp
        by_contra hne
        have hpos : 0 < k := by omega
        have hmem : seg0 ∈ (stringsSplit fc0 44).take k :=
          List.getElem?_mem ((List.getElem?_take_of_lt hpos).trans h0)
        rw [hacc seg0 hmem] at hrej0
        exact absurd hrej0 (by simp)
      refine ⟨by rw [hlen]; exact hfst, by rw [hlen]; exact hacc,
        ⟨seg, by rw [hlen]; exact hseg, hrej⟩, hfirst, ?_⟩
      intro hno
      rw [stringsSplit_of_not_contains fc0 44 hno] at hseg
      apply List.length_eq_zero.mp
      by_contra hne
      have hkpos : 1 ≤ k := by omega
      have hnone : ([fc0] : List GoString)[k]? = none :=
        List.getElem?_eq_none (by simpa using hkpos)
      rw [hnone] at hseg
      exact absurd hseg (by simp)
  · intro Req Resp failureRate p ctx req handler w hctx hp
    unfold unaryServerInterceptor
    simp only [hctx, hp, h]

/-- The witness of C14 at `failcodes=4,8,abc`: the codes 4 and 8 come back
    with the error, and the interceptor returns the error alone. -/
theorem C14_error_codes_discarded_witness :
    readFailCodes (sampleMD "100" "4,8,abc") =
      some ([4, 8], some (GoError.statusError codesInvalidArgument
        (str "failcodes ParseInt error"))) ∧
    (∃ seg, (stringsSplit (str "4,8,abc") 44)[([4, 8] : List Nat).length]? = some seg ∧
      segmentAccepted seg = false) ∧
    unaryServerInterceptor 50 { incomingMD := some (sampleMD "100" "4,8,abc") } sampleReq
        UnaryEcho (worldWithWord 7) =
      some ((none, some (GoError.statusError codesInvalidArgument
        (str "failcodes ParseInt error"))), worldWithWord 7) :=
  have hw := C14_error_codes_discarded (sampleMD "100" "4,8,abc") [4, 8]
    (GoError.statusError codesInvalidArgument (str "failcodes ParseInt error")) (by decide)
  ⟨by decide,
    (by
      obtain ⟨fc0, rest, hget, _, _, hseg, _, _⟩ := hw.1
      have hfc : fc0 = str "4,8,abc" := by
        have hg : MD.get (sampleMD "100" "4,8,abc") (str "failcodes") =
            some [str "4,8,abc"] := by decide
        rw [hg] at hget
        simp only [Option.some.injEq, List.cons.injEq] at hget
        exact hget.1.symm
      rw [hfc] at hseg
      exact hseg),
    hw.2 EchoRequest EchoResponse 50 100
      { incomingMD := some (sampleMD "100" "4,8,abc") } sampleReq UnaryEcho (worldWithWord 7)
      rfl (by decide)⟩

/-- C15: whatever the generator yields, `anyRandomCode` returns a code of at
    most 15, never 16; the largest generator word gives the draw 14 and the
    code 15. -/
theorem C15_anyRandomCode_never_16 :
    (∀ w : World, (anyRandomCode w).1 ≤ 15 ∧ (anyRandomCode w).1 ≠ 16) ∧
    (FastRandN maxCode (worldWithWord 4294967295)).1 = 14 ∧
    (anyRandomCode (worldWithWord 4294967295)).1 = 15 := by
  refine ⟨fun w => ?_, by decide, by decide⟩
  have hb := anyRandomCode_bounds w
  omega

/-- C16: the interceptor validates in a fixed order. Without metadata it
    returns "missing metadata". An error of `readFailPercent` is returned
    whatever `readFailCodes` would say, and differs from every error of
    `readFailCodes`. An error of `readFailCodes` is returned when the
    probability resolved, and only then. -/
theorem C16_validation_order {Req Resp : Type} (failureRate : Int) (ctx : Context)
    (req : Req) (handler : UnaryHandler Req Resp) (w : World) :
    (ctx.incomingMD = none →
      unaryServerInterceptor failureRate ctx req handler w =
        some ((none, some (GoError.statusError codesInvalidArgument
          (str "missing metadata"))), w)) ∧
    (∀ md v e1, ctx.incomingMD = some md →
      readFailPercent failureRate md = some (v, some e1) →
      unaryServerInterceptor failureRate ctx req handler w = some ((none, some e1), w) ∧
      ∀ cs e2, readFailCodes md = some (cs, some e2) → e1 ≠ e2) ∧
    (∀ md p cs e2, ctx.incomingMD = some md →
      readFailPercent failureRate md = some (p, none) →
      readFailCodes md = some (cs, some e2) →
      unaryServerInterceptor failureRate ctx req handler w = some ((none, some e2), w)) ∧
    (∀ md cs e2 res w1, ctx.incomingMD = some md →
      readFailCodes md = some (cs, some e2) →
      unaryServerInterceptor failureRate ctx req handler w = some ((res, some e2), w1) →
      ∃ p, readFailPercent failureRate md = some (p, none)) := by
  refine ⟨?_, ?_, ?_, ?_⟩
  · intro hnone
    unfold unaryServerInterceptor
    simp only [hnone, errMissingMetadata, statusError_invalidArgument]
  · intro md v e1 hctx hp
    refine ⟨?_, fun cs e2 hc => resolver_errors_differ failureRate md v cs e1 e2 hp hc⟩
    unfold unaryServerInterceptor
    simp only [hctx, hp]
  · intro md p cs e2 hctx hp hc
    unfold unaryServerInterceptor
    simp only [hctx, hp, hc]
  · intro md cs e2 res w1 hctx hc hres
    cases hp : readFailPercent failureRate md with
    | none =>
      unfold unaryServerInterceptor at hres
      simp [hctx, hp] at hres
    | some r =>
      obtain ⟨v, err⟩ := r
      cases err with
      | none => exact ⟨v, rfl⟩
      | some e1 =>
        have hne := resolver_errors_differ failureRate md v cs e1 e2 hp hc
        unfold unaryServerInterceptor at hres
        simp only [hctx, hp, Option.some.injEq, Prod.mk.injEq] at hres
        exact absurd hres.1.2 hne

/-- The witness of C16 at `failpercent=abc`, `failcodes=xyz`, both invalid:
    the error returned is that of `readFailPercent`. -/
theorem C16_validation_order_witness :
    readFailCodes (sampleMD "abc" "xyz") =
      some ([], some (GoError.statusError codesInvalidArgument
        (str "failcodes ParseInt error"))) ∧
    unaryServerInterceptor 50 { incomingMD := some (sampleMD "abc" "xyz") } sampleReq
        UnaryEcho (worldWithWord 7) =
      some ((none, some (GoError.statusError codesInvalidArgument
        (str "failme ParseInt error"))), worldWithWord 7) :=
  ⟨by decide,
    ((C16_validation_order 50 { incomingMD := some (sampleMD "abc" "xyz") } sampleReq
      UnaryEcho (worldWithWord 7)).2.1 (sampleMD "abc" "xyz") 0
      (GoError.statusError codesInvalidArgument (str "failme ParseInt error")) rfl
      (by decide)).1⟩

/-- C17: `readFailCodes` returns the empty list without error exactly when
    the key "failcodes" is absent. With the key present and a first value,
    whatever string it is, it returns without a panic, and when it returns
    no error the list has one code for each comma-separated segment of that
    value, hence at least one. -/
theorem C17_empty_list_iff_absent (md : MD) :
    (md.get (str "failcodes") = none → readFailCodes md = some ([], none)) ∧
    (∀ fc0 rest, md.get (str "failcodes") = some (fc0 :: rest) →
      ∃ cs err, readFailCodes md = some (cs, err) ∧
        (err = none → cs ≠ [] ∧ cs.length = (stringsSplit fc0 44).length)) ∧
    (readFailCodes md = some ([], none) ↔ md.get (str "failcodes") = none) := by
  have habsent : md.get (str "failcodes") = none → readFailCodes md = some ([], none) := by
    intro hget
    unfold readFailCodes
    simp only [hget]
  have hpresent : ∀ fc0 rest, md.get (str "failcodes") = some (fc0 :: rest) →
      ∃ cs err, readFailCodes md = some (cs, err) ∧
        (err = none → cs ≠ [] ∧ cs.length = (stringsSplit fc0 44).length) := by
    intro fc0 rest hget
    refine ⟨(readFailCodesLoop (stringsSplit fc0 44) []).1,
      (readFailCodesLoop (stringsSplit fc0 44) []).2,
      readFailCodes_eq_loop md fc0 rest hget, ?_⟩
    intro herr
    obtain ⟨k, _, hfst, hnone, _⟩ := readFailCodesLoop_prefix (stringsSplit fc0 44) []
    have hk := hnone herr
    have hlen : (readFailCodesLoop (stringsSplit fc0 44) []).1.length =
        (stringsSplit fc0 44).length := by
      rw [hfst, hk]
      simp
    have hpos : 0 < (stringsSplit fc0 44).length := by
      cases fc0 with
      | nil => simp [stringsSplit]
      | cons c s =>
        unfold stringsSplit
        split
        · simp
        · split <;> simp
    refine ⟨?_, hlen⟩
    intro hnil
    rw [hnil] at hlen
    simp only [List.length_nil] at hlen
    omega
  refine ⟨habsent, hpresent, ?_, habsent⟩
  intro h
  rcases readFailCodes_some_cases md _ h with ⟨hget, _⟩ | ⟨fc0, rest, hget⟩
  · exact hget
  · obtain ⟨cs, err, hres, hcs⟩ := hpresent fc0 rest hget
    rw [h] at hres
    simp only [Option.some.injEq, Prod.mk.injEq] at hres
    exact absurd hres.1 (hcs hres.2.symm).1.symm

/-- The witness of C17: the key absent, and the key present with the value
    "4,8,", whose last segment is empty. -/
theorem C17_empty_list_iff_absent_witness :
    readFailCodes (sampleMD "50" "4,8,") =
      some ([4, 8], some (GoError.statusError codesInvalidArgument
        (str "failcodes ParseInt error"))) ∧
    readFailCodes [] = some ([], none) ∧
    ∃ cs err, readFailCodes (sampleMD "50" "4,8,") = some (cs, err) ∧
      (err = none → cs ≠ [] ∧ cs.length = (stringsSplit (str "4,8,") 44).length) :=
  ⟨by decide, (C17_empty_list_iff_absent []).1 (by decide),
    (C17_empty_list_iff_absent (sampleMD "50" "4,8,")).2.1 (str "4,8,") [] (by decide)⟩

/-- C18: for a first value without a comma, `readFailCodes` returns through
    its no-comma branch, the value splits into exactly one segment, itself,
    and the split-and-loop branch returns the same list and the same error
    on it. -/
theorem C18_no_comma_branch_is_general (md : MD) (fc0 : GoString) (rest : List GoString)
    (hget : md.get (str "failcodes") = some (fc0 :: rest))
    (hno : stringsContains fc0 44 = false) :
    stringsSplit fc0 44 = [fc0] ∧
    readFailCodes md = some (noCommaBranch fc0) ∧
    noCommaBranch fc0 = splitBranch fc0 := by
  refine ⟨stringsSplit_of_not_contains fc0 44 hno, ?_, noCommaBranch_eq_splitBranch fc0 hno⟩
  rw [readFailCodes_branches md fc0 rest hget, if_pos hno]

/-- The witness of C18 at `failcodes=14`. -/
theorem C18_no_comma_branch_is_general_witness :
    stringsContains (str "14") 44 = false ∧
    stringsSplit (str "14") 44 = [str "14"] ∧
    readFailCodes (sampleMD "50" "14") = some (noCommaBranch (str "14")) ∧
    noCommaBranch (str "14") = splitBranch (str "14") :=
  ⟨by decide,
    C18_no_comma_branch_is_general (sampleMD "50" "14") (str "14") [] (by decide)
      (by decide)⟩

/-- C19: on a metadata whose present keys carry at least one value, both
    resolvers return a value or an error, never a panic, and the indexed loop
    over `parts` never reads outside `parts`. The one way to a panic is the
    key "failpercent", for `readFailPercent`, or "failcodes", for
    `readFailCodes`, present with an empty value slice. -/
theorem C19_index_safety (dflt : Int) (md : MD)
    (hmd : ∀ key values, md.get key = some values → values ≠ []) :
    (∃ r, readFailPercent dflt md = some r) ∧
    (∃ r, readFailCodes md = some r) ∧
    (∀ parts : List GoString,
      readFailCodesFrom parts 0 [] = some (readFailCodesLoop parts [])) ∧
    (∀ md2 : MD,
      (readFailPercent dflt md2 = none ↔ md2.get (str "failpercent") = some []) ∧
      (readFailCodes md2 = none ↔ md2.get (str "failcodes") = some [])) := by
  refine ⟨?_, ?_, ?_, fun md2 => ⟨readFailPercent_none_iff dflt md2, readFailCodes_none_iff md2⟩⟩
  · cases h : readFailPercent dflt md with
    | some r => exact ⟨r, rfl⟩
    | none =>
      exact absurd rfl (hmd _ _ ((readFailPercent_none_iff dflt md).mp h))
  · cases h : readFailCodes md with
    | some r => exact ⟨r, rfl⟩
    | none =>
      exact absurd rfl (hmd _ _ ((readFailCodes_none_iff md).mp h))
  · intro parts
    have h := readFailCodesFrom_eq parts (parts.length - 0) 0 [] rfl
    rw [List.drop_zero] at h
    exact h

/-- The witness of C19 at `failpercent=50`, `failcodes=4,8,14`. -/
theorem C19_index_safety_witness :
    (∃ r, readFailPercent 7 (sampleMD "50" "4,8,14") = some r) ∧
    (∃ r, readFailCodes (sampleMD "50" "4,8,14") = some r) :=
  have h := C19_index_safety 7 (sampleMD "50" "4,8,14") (by
    intro key values h
    simp only [MD.get, sampleMD, List.lookup] at h
    split at h
    · cases h
      simp
    · split at h
      · cases h
        simp
      · cases h)
  ⟨h.1, h.2.1⟩

/-- C20: the resolvers parse with base detection, so a value that is not a
    decimal string can resolve: "0x32" as `failpercent` resolves to the
    probability 50, whatever the default, and "0xE" as `failcodes` resolves to
    the one-element list holding 14. -/
theorem C20_base_detection (dflt : Int) :
    ParseInt (str "0x32") = (50, none) ∧
    readFailPercent dflt [(str "failpercent", [str "0x32"])] = some (50, none) ∧
    ParseInt (str "0xE") = (14, none) ∧
    readFailCodes [(str "failcodes", [str "0xE"])] = some ([14], none) := by
  have hparse : ParseInt (str "0x32") = (50, none) := by decide
  have hget : MD.get [(str "failpercent", [str "0x32"])] (str "failpercent") =
      some [str "0x32"] := by decide
  have hval : validateFailurePercent 50 = none := by decide
  refine ⟨hparse, ?_, by decide, by decide⟩
  unfold readFailPercent
  simp only [hget, List.getElem?_cons_zero, hparse, hval]

end GrpcTest
